import Mathlib

/-!
The container decoder of risu-asset-extractor, `browser-extractor.js`.

A shallow embedding of the container decoder of `src/module_extractor/browser-extractor.js`
(`getExtensionFromBytes` and `handleFileSelect` with its reader closures `readByte`,
`readLength`, `readData`), followed by the properties proved about it.

Conventions of the embedding.

* A `Uint8Array` is a list of bytes, `List (Fin 256)`.
* A JavaScript string is a Lean `String`; its `.length` is the number of UTF-16 code units
  (`utf16Length`).
* A thrown exception is a value of `DecodeError`; the `catch` block of `handleFileSelect`
  turns it into the error status.
* The two external capabilities, `decodeRPack` (imported from `rpack_bg.js`) and the platform
  text decoder plus `JSON.parse`, are parameters of the model.
* The DOM state written by `handleFileSelect` (structure view, result links, status) is the
  record `Final`, which also carries the cursor `pos` and the list of arguments passed to
  `decodeRPack`.
-/

namespace RisuExtractor

/-- A byte of a `Uint8Array`. -/
abbrev Byte := Fin 256

/-- The content of a `Uint8Array`. -/
abbrev Bytes := List Byte

/-- The element `uint8Array[i]`: `none` stands for `undefined` (index out of range). -/
def byteAt (u : Bytes) (i : Nat) : Option Byte := u.get? i

/-- Source lines 16-24: sniff the image type from the leading bytes; `none` is `null`. -/
def getExtensionFromBytes (uint8Array : Bytes) : Option String :=
  if uint8Array.length < 12 then none
  else if byteAt uint8Array 0 = some 137 ∧ byteAt uint8Array 1 = some 80 ∧
      byteAt uint8Array 2 = some 78 ∧ byteAt uint8Array 3 = some 71 then some "png"
  else if byteAt uint8Array 0 = some 255 ∧ byteAt uint8Array 1 = some 216 ∧
      byteAt uint8Array 2 = some 255 then some "jpg"
  else if byteAt uint8Array 0 = some 71 ∧ byteAt uint8Array 1 = some 73 ∧
      byteAt uint8Array 2 = some 70 ∧ byteAt uint8Array 3 = some 56 then some "gif"
  else if byteAt uint8Array 0 = some 82 ∧ byteAt uint8Array 1 = some 73 ∧
      byteAt uint8Array 2 = some 70 ∧ byteAt uint8Array 3 = some 70 ∧
      byteAt uint8Array 8 = some 87 ∧ byteAt uint8Array 9 = some 69 ∧
      byteAt uint8Array 10 = some 80 ∧ byteAt uint8Array 11 = some 80 then some "webp"
  else none

/-! ## JavaScript values and strings -/

/-- A JavaScript value, as far as the extractor inspects the third field of an asset
descriptor: `number` carries an integral number, `object` stands for any object or array. -/
inductive JSValue where
  | undefined
  | null
  | boolean (b : Bool)
  | number (n : Int)
  | string (s : String)
  | object
  deriving DecidableEq, Repr

/-- Truthiness of a value (`ToBoolean`). -/
def JSValue.truthy : JSValue → Bool
  | .undefined => false
  | .null => false
  | .boolean b => b
  | .number n => n != 0
  | .string s => !s.data.isEmpty
  | .object => true

/-- The `.length` of a JavaScript string: its number of UTF-16 code units. -/
def utf16Length (s : String) : Nat :=
  (s.data.map fun c => if c.toNat < 65536 then 1 else 2).sum

/-- The segments of `s.split('/')`, never an empty array. -/
def splitSlash : List Char → List (List Char)
  | [] => [[]]
  | c :: cs =>
    if c = '/' then [] :: splitSlash cs
    else
      match splitSlash cs with
      | [] => [[c]]
      | seg :: segs => (c :: seg) :: segs

/-- The value of `assetType.split('/').pop()`: the last segment (`none` is `undefined`). -/
def splitPop (assetType : String) : Option String :=
  (splitSlash assetType.data).getLast?.map String.mk

/-- Truthiness of the local `extension`, which holds `null`, `undefined` or a string. -/
def extensionTruthy : Option String → Bool
  | none => false
  | some e => !e.data.isEmpty

/-- One character of the pattern matched under the `i` flag (no `u` flag): both sides are
canonicalised to upper case, and a character outside ASCII never canonicalises to an ASCII
letter, so ASCII upper-casing decides the comparison. -/
def matchesIgnoreCase (p c : Char) : Bool := c.toUpper == p.toUpper

/-- The pattern characters match the input characters one by one. -/
def matchesHere : List Char → List Char → Bool
  | [], [] => true
  | p :: ps, c :: cs => matchesIgnoreCase p c && matchesHere ps cs
  | _, _ => false

/-- The literal `pat` matches a substring of `s` that ends at the end of input (`$`). -/
def matchesAtEnd (pat : String) (s : List Char) : Bool :=
  matchesHere pat.data (s.drop (s.length - pat.length))

/-- Source line 99 and the test of line 101: `/\.(png|jpg|jpeg|gif|webp)$/i.test(assetId)`. -/
def knownExtensions (assetId : String) : Bool :=
  [".png", ".jpg", ".jpeg", ".gif", ".webp"].any fun pat => matchesAtEnd pat assetId.data

/-- Source lines 96-112: the download name of an asset. -/
def resolveFilename (assetId : String) (assetType : JSValue) (assetDataDecoded : Bytes) :
    String :=
  if knownExtensions assetId then assetId
  else
    let extension : Option String :=
      match assetType with
      | .string t =>
        if assetType.truthy ∧ 0 < utf16Length t ∧ utf16Length t < 5 then splitPop t else none
      | _ => none
    let extension : Option String :=
      if extensionTruthy extension then extension else getExtensionFromBytes assetDataDecoded
    match extension with
    | some e => if extensionTruthy (some e) then assetId ++ "." ++ e else assetId
    | none => assetId

/-! ## The container reader and `handleFileSelect` -/

/-- The exceptions that reach the `catch` block of `handleFileSelect`. -/
inductive DecodeError where
  /-- `RangeError` of a `DataView` accessor reading outside the buffer (OutOfBounds). -/
  | rangeError
  /-- The error thrown at line 48: wrong magic number (InvalidFormat). -/
  | invalidMagic
  /-- The error thrown at line 49: unsupported version (UnsupportedVersion). -/
  | unsupportedVersion
  /-- An exception of `decodeRPack` (DecompressionError). -/
  | decompression
  /-- `SyntaxError` of `JSON.parse` (MalformedMetadata). -/
  | malformedJson
  /-- `TypeError` of a property access on `undefined` (MalformedMetadata). -/
  | typeError
  deriving DecidableEq, Repr

/-- One entry `[assetId, _, assetType]` of `module.assets`: an array whose first element is a
string. An entry of another shape (a value that is not iterable, for which the destructuring
of line 93 throws a `TypeError`, or an id that is not a string) is outside this type. -/
structure AssetDescriptor where
  id : String
  declaredType : JSValue
  deriving DecidableEq, Repr

/-- The object `mainJson.module`; `assets` is `none` when the property is absent. -/
structure ModuleInfo where
  name : String
  assets : Option (List AssetDescriptor)
  deriving DecidableEq, Repr

/-- The parsed metadata document; `module` is `none` when the property is absent. -/
structure MainJson where
  module : Option ModuleInfo
  deriving DecidableEq, Repr

/-- One download link appended to `resultsDiv`: its `download` name and its blob content. -/
structure ResolvedAsset where
  filename : String
  content : Bytes
  deriving DecidableEq, Repr

/-- The final content of `statusDiv`. -/
inductive Status where
  /-- Line 75-76: success, the file has no asset to extract. -/
  | noAssets
  /-- Lines 80 and 146-147: success, with the module name and the declared asset count. -/
  | extracted (name : String) (declared : Nat)
  /-- Lines 150-151: the error caught. -/
  | error (e : DecodeError)
  deriving DecidableEq, Repr

/-- What `handleFileSelect` leaves behind: the cursor, the structure view, the links of
`resultsDiv`, the arguments of the `decodeRPack` calls in order, and the status. -/
structure Final where
  pos : Nat
  structureView : Option MainJson
  results : List ResolvedAsset
  decodeCalls : List Bytes
  status : Status
  deriving DecidableEq, Repr

/-- Source line 44: `view.getUint8(pos)` throws outside the buffer, else the cursor moves by 1. -/
def readByte (buf : Bytes) (pos : Nat) : Except DecodeError (Byte × Nat) :=
  match buf.get? pos with
  | some byte => .ok (byte, pos + 1)
  | none => .error .rangeError

/-- Source line 45: `view.getUint32(pos, true)` throws unless 4 bytes remain at `pos`. -/
def readLength (buf : Bytes) (pos : Nat) : Except DecodeError (Nat × Nat) :=
  match buf.drop pos with
  | b0 :: b1 :: b2 :: b3 :: _ =>
    .ok (b0.val + 256 * b1.val + 65536 * b2.val + 16777216 * b3.val, pos + 4)
  | _ => .error .rangeError

/-- Source line 46: `uint8Array.subarray(pos, pos + len)` clamps both ends to the buffer and
never throws; the cursor moves by `len` all the same. -/
def readData (buf : Bytes) (pos len : Nat) : Bytes × Nat :=
  ((buf.drop pos).take len, pos + len)

/-- The variables of the asset loop: cursor, `assetIndex`, links appended so far, and the
arguments of the `decodeRPack` calls so far. -/
structure LoopState where
  pos : Nat
  assetIndex : Nat
  results : List ResolvedAsset
  decodeCalls : List Bytes
  deriving DecidableEq, Repr

/-- Source lines 85-126, the `while` loop, run for at most `fuel` iterations. The result is
the state where the loop stopped and the exception thrown, if any; `none` means that the
fuel ran out before the loop stopped. -/
def assetLoop (decodeRPack : Bytes → Option Bytes) (buf : Bytes) (assets : List AssetDescriptor) :
    Nat → LoopState → Option (LoopState × Option DecodeError)
  | 0, _ => none
  | fuel + 1, s =>
    if s.pos < buf.length ∧ s.assetIndex < assets.length then
      match readByte buf s.pos with
      | .error e => some (s, some e)
      | .ok (marker, p1) =>
        if marker = 0 then some ({ s with pos := p1 }, none)
        else if marker ≠ 1 then assetLoop decodeRPack buf assets fuel { s with pos := p1 }
        else
          match readLength buf p1 with
          | .error e => some ({ s with pos := p1 }, some e)
          | .ok (assetLen, p2) =>
            let (assetDataPacked, p3) := readData buf p2 assetLen
            let calls := s.decodeCalls ++ [assetDataPacked]
            match decodeRPack assetDataPacked with
            | none => some ({ s with pos := p3, decodeCalls := calls }, some .decompression)
            | some assetDataDecoded =>
              match assets.get? s.assetIndex with
              | none => some ({ s with pos := p3, decodeCalls := calls }, some .typeError)
              | some d =>
                let filename := resolveFilename d.id d.declaredType assetDataDecoded
                assetLoop decodeRPack buf assets fuel
                  { pos := p3, assetIndex := s.assetIndex + 1,
                    results := s.results ++ [⟨filename, assetDataDecoded⟩],
                    decodeCalls := calls }
    else some (s, none)

/-- Source lines 26-154. `decodeRPack` is the imported decompressor (`none`: it throws) and
`parseJson` is the text decoder followed by `JSON.parse` (`none`: it throws). The loop gets
one unit of fuel per byte of the buffer; `none` means that this was not enough. -/
def handleFileSelect (decodeRPack : Bytes → Option Bytes) (parseJson : Bytes → Option MainJson)
    (buf : Bytes) : Option Final :=
  let fail (pos : Nat) (view : Option MainJson) (calls : List Bytes) (e : DecodeError) :
      Option Final :=
    some { pos := pos, structureView := view, results := [], decodeCalls := calls,
           status := .error e }
  match readByte buf 0 with
  | .error e => fail 0 none [] e
  | .ok (magic, p1) =>
    if magic ≠ 111 then fail p1 none [] .invalidMagic
    else
      match readByte buf p1 with
      | .error e => fail p1 none [] e
      | .ok (version, p2) =>
        if version ≠ 0 then fail p2 none [] .unsupportedVersion
        else
          match readLength buf p2 with
          | .error e => fail p2 none [] e
          | .ok (mainLen, p3) =>
            let (mainDataPacked, p4) := readData buf p3 mainLen
            match decodeRPack mainDataPacked with
            | none => fail p4 none [mainDataPacked] .decompression
            | some mainDataDecoded =>
              match parseJson mainDataDecoded with
              | none => fail p4 none [mainDataPacked] .malformedJson
              | some mainJson =>
                match mainJson.module with
                | none => fail p4 (some mainJson) [mainDataPacked] .typeError
                | some moduleInfo =>
                  match moduleInfo.assets with
                  | none =>
                    some { pos := p4, structureView := some mainJson, results := [],
                           decodeCalls := [mainDataPacked], status := .noAssets }
                  | some assets =>
                    if assets.length = 0 then
                      some { pos := p4, structureView := some mainJson, results := [],
                             decodeCalls := [mainDataPacked], status := .noAssets }
                    else
                      match assetLoop decodeRPack buf assets buf.length
                          { pos := p4, assetIndex := 0, results := [],
                            decodeCalls := [mainDataPacked] } with
                      | none => none
                      | some (s, some e) =>
                        some { pos := s.pos, structureView := some mainJson,
                               results := s.results, decodeCalls := s.decodeCalls,
                               status := .error e }
                      | some (s, none) =>
                        some { pos := s.pos, structureView := some mainJson,
                               results := s.results, decodeCalls := s.decodeCalls,
                               status := .extracted moduleInfo.name assets.length }

/-! ## The words of the specification -/

/-- The five suffixes that the specification recognises, in lower case. -/
def imageSuffixes : List String := [".png", ".jpg", ".jpeg", ".gif", ".webp"]

/-- The id ends in one of the five image suffixes, in any letter case. -/
def EndsInImageSuffix (assetId : String) : Prop :=
  ∃ pre suf : List Char, assetId.data = pre ++ suf ∧
    ∃ pat ∈ imageSuffixes, suf.map Char.toLower = pat.data

/-- The list `suf` is the part of `t` after its last `'/'`, or all of `t` when it has none. -/
def IsAfterLastSlash (t suf : List Char) : Prop :=
  (t = suf ∨ ∃ pre : List Char, t = pre ++ '/' :: suf) ∧ '/' ∉ suf

/-- A character that is not an upper-case ASCII letter. -/
abbrev NotUpper (p : Char) : Prop := ¬ (65 ≤ p.toNat ∧ p.toNat ≤ 90)

/-- Step 2 of the specification yields no candidate: the declared type is absent or not a
string, or it is a string that is empty, 5 or more code units long, or ends in `'/'`. -/
def NoDeclaredCandidate (assetType : JSValue) : Prop :=
  (∀ t : String, assetType ≠ .string t) ∨
    ∃ t : String, assetType = .string t ∧
      (t.data = [] ∨ 5 ≤ utf16Length t ∨ ∃ pre : List Char, t.data = pre ++ ['/'])

/-! ## Stand-ins for the external capabilities, used at concrete inputs -/

/-- A decompressor that returns its input unchanged. -/
def identityRPack : Bytes → Option Bytes := fun packed => some packed

/-- The document `{"module":{"name":"Demo","assets":[["img1","","image/png"]]}}`. -/
def demoJson : MainJson :=
  ⟨some ⟨"Demo", some [⟨"img1", .string "image/png"⟩]⟩⟩

/-- The document `{"module":{"name":"Demo","assets":[]}}`. -/
def emptyJson : MainJson := ⟨some ⟨"Demo", some []⟩⟩

/-- A parser that yields `doc` for every input text. -/
def constantParse (doc : MainJson) : Bytes → Option MainJson := fun _ => some doc

/-- The document
`{"module":{"name":"Demo","assets":[["img1","","image/png"],["img2","","image/png"]]}}`. -/
def twoAssetsJson : MainJson :=
  ⟨some ⟨"Demo", some [⟨"img1", .string "image/png"⟩, ⟨"img2", .string "image/png"⟩]⟩⟩

/-- The UTF-8 bytes of the text
`{"module":{"name":"Demo","assets":[["img1","","image/png"]]}}`. -/
def demoJsonText : Bytes :=
  [123, 34, 109, 111, 100, 117, 108, 101, 34, 58, 123, 34, 110, 97, 109, 101, 34, 58, 34, 68,
   101, 109, 111, 34, 44, 34, 97, 115, 115, 101, 116, 115, 34, 58, 91, 91, 34, 105, 109, 103,
   49, 34, 44, 34, 34, 44, 34, 105, 109, 97, 103, 101, 47, 112, 110, 103, 34, 93, 93, 125, 125]

/-- A parser that knows one text only: it yields `demoJson` for `demoJsonText` and fails on
every other input. -/
def parseDemoText : Bytes → Option MainJson :=
  fun text => if text = demoJsonText then some demoJson else none

/-! ## The asset section of a container, as the specification describes it -/

/-- What the asset loop can pass over without stopping: a byte that is no known marker, or a
complete frame (marker 1, a 4-byte length, a payload) together with the output expected from
`decodeRPack` for its payload. -/
inductive Item where
  | skip (marker : Byte)
  | frame (c0 c1 c2 c3 : Byte) (payload decoded : Bytes)
  deriving DecidableEq, Repr

/-- The bytes of an item in the container. -/
def Item.encode : Item → Bytes
  | .skip marker => [marker]
  | .frame c0 c1 c2 c3 payload _ => 1 :: c0 :: c1 :: c2 :: c3 :: payload

/-- A skipped byte is neither 0 nor 1; a frame declares the exact length of its payload, and
`decodeRPack` turns the payload into the expected output. -/
def Item.WellFormed (decodeRPack : Bytes → Option Bytes) : Item → Prop
  | .skip marker => marker ≠ 0 ∧ marker ≠ 1
  | .frame c0 c1 c2 c3 payload decoded =>
    payload.length = c0.val + 256 * c1.val + 65536 * c2.val + 16777216 * c3.val ∧
      decodeRPack payload = some decoded

/-- The bytes of a sequence of items, one after the other. -/
def encodeItems : List Item → Bytes
  | [] => []
  | it :: its => it.encode ++ encodeItems its

/-- The payloads of the frames of a sequence of items, in buffer order. -/
def itemPayloads : List Item → List Bytes
  | [] => []
  | .skip _ :: its => itemPayloads its
  | .frame _ _ _ _ payload _ :: its => payload :: itemPayloads its

/-- The decompressed outputs of the frames of a sequence of items, in buffer order. -/
def itemOutputs : List Item → List Bytes
  | [] => []
  | .skip _ :: its => itemOutputs its
  | .frame _ _ _ _ _ decoded :: its => decoded :: itemOutputs its

/-- The resolved assets obtained by pairing descriptors and outputs by position. -/
def resolveAll (assets : List AssetDescriptor) (outputs : List Bytes) : List ResolvedAsset :=
  List.zipWith (fun d out => ⟨resolveFilename d.id d.declaredType out, out⟩) assets outputs

/-- What a decode shows: everything but the cursor. -/
def Final.shown (f : Final) : Option MainJson × List ResolvedAsset × List Bytes × Status :=
  (f.structureView, f.results, f.decodeCalls, f.status)

/-- What a run of the asset loop leaves behind, but for the cursor. -/
def loopShown (r : LoopState × Option DecodeError) :
    Nat × List ResolvedAsset × List Bytes × Option DecodeError :=
  (r.1.assetIndex, r.1.results, r.1.decodeCalls, r.2)

/-- The payloads of the first marker-1 frames of an asset section, in buffer order. Read
from the start of `rest`: before a frame come only bytes other than 0 and 1; a frame is the
marker 1, a 4-byte little-endian length and its payload, which is the bytes that follow, as
many as declared or, at the end of the buffer, as many as are left; the next frame is looked
for after the declared length. -/
inductive FramePayloads : Bytes → List Bytes → Prop where
  | done (rest : Bytes) : FramePayloads rest []
  | skip (marker : Byte) (rest : Bytes) (payloads : List Bytes) (h0 : marker ≠ 0)
      (h1 : marker ≠ 1) (h : FramePayloads rest payloads) :
      FramePayloads (marker :: rest) payloads
  | frame (c0 c1 c2 c3 : Byte) (rest : Bytes) (payloads : List Bytes)
      (h : FramePayloads
        (rest.drop (c0.val + 256 * c1.val + 65536 * c2.val + 16777216 * c3.val)) payloads) :
      FramePayloads (1 :: c0 :: c1 :: c2 :: c3 :: rest)
        (rest.take (c0.val + 256 * c1.val + 65536 * c2.val + 16777216 * c3.val) :: payloads)

/-! ## Case analysis and invariants of the asset loop -/

/-- The shapes that the bytes at the cursor of the asset loop can have: nothing left or all
descriptors used (`stop`), a 0 marker, an unknown marker, a marker 1 with fewer than 4 bytes
after it, and a marker 1 frame whose payload `decodeRPack` rejects or accepts. -/
inductive LoopCase (decodeRPack : Bytes → Option Bytes) (buf : Bytes)
    (assets : List AssetDescriptor) (s : LoopState) : Prop where
  | stop (h : buf.drop s.pos = [] ∨ ¬ s.assetIndex < assets.length)
  | zero (rest : Bytes) (hpos : buf.drop s.pos = 0 :: rest)
      (hidx : s.assetIndex < assets.length)
  | skip (marker : Byte) (rest : Bytes) (hpos : buf.drop s.pos = marker :: rest)
      (h0 : marker ≠ 0) (h1 : marker ≠ 1) (hidx : s.assetIndex < assets.length)
  | short (rest : Bytes) (hpos : buf.drop s.pos = 1 :: rest) (hrest : rest.length < 4)
      (hidx : s.assetIndex < assets.length)
  | rejected (c0 c1 c2 c3 : Byte) (rest : Bytes)
      (hpos : buf.drop s.pos = 1 :: c0 :: c1 :: c2 :: c3 :: rest)
      (hidx : s.assetIndex < assets.length)
      (hdec : decodeRPack
        (rest.take (c0.val + 256 * c1.val + 65536 * c2.val + 16777216 * c3.val)) = none)
  | frame (c0 c1 c2 c3 : Byte) (rest out : Bytes) (d : AssetDescriptor)
      (hpos : buf.drop s.pos = 1 :: c0 :: c1 :: c2 :: c3 :: rest)
      (hidx : assets.get? s.assetIndex = some d)
      (hdec : decodeRPack
        (rest.take (c0.val + 256 * c1.val + 65536 * c2.val + 16777216 * c3.val)) = some out)

/-- The invariant of the asset loop while it runs: `assetIndex` counts the links appended,
never more than there are descriptors; every payload handed to `decodeRPack` after the
metadata block was accepted and its output is the content of the link of the same rank; and
the link of rank `k` is named from descriptor `k` and its own content. -/
def LoopInv (decodeRPack : Bytes → Option Bytes) (assets : List AssetDescriptor)
    (s : LoopState) : Prop :=
  s.assetIndex = s.results.length ∧ s.results.length ≤ assets.length ∧ s.decodeCalls ≠ [] ∧
  s.decodeCalls.tail.map decodeRPack = s.results.map (fun a => some a.content) ∧
  ∀ (k : Nat) (a : ResolvedAsset), s.results.get? k = some a →
    ∃ d, assets.get? k = some d ∧ a.filename = resolveFilename d.id d.declaredType a.content

/-- What holds wherever the asset loop stops, also when it stops on an exception: the links
are, in order, the outputs of the payloads that `decodeRPack` accepted, each named from the
descriptor of its rank. -/
def StopInv (decodeRPack : Bytes → Option Bytes) (assets : List AssetDescriptor)
    (s : LoopState) : Prop :=
  s.results.length ≤ assets.length ∧
  s.decodeCalls.tail.filterMap decodeRPack = s.results.map (fun a => a.content) ∧
  ∀ (k : Nat) (a : ResolvedAsset), s.results.get? k = some a →
    ∃ d, assets.get? k = some d ∧ a.filename = resolveFilename d.id d.declaredType a.content

/-! ## Characters and the suffix test -/

theorem toNat_ofNat_small (n : Nat) (h : n < 55296) : (Char.ofNat n).toNat = n := by
  have hv : n.isValidChar := Or.inl h
  simp only [Char.ofNat, dif_pos hv, Char.ofNatAux, Char.toNat]
  show (UInt32.ofNat' n _).toNat = n
  simp [UInt32.ofNat', UInt32.toNat]

theorem char_eq_iff_toNat (a b : Char) : a = b ↔ a.toNat = b.toNat := by
  constructor
  · rintro rfl; rfl
  · intro h
    apply Char.ext
    apply UInt32.ext
    exact h

theorem toNat_toUpper (c : Char) :
    c.toUpper.toNat = if 97 ≤ c.toNat ∧ c.toNat ≤ 122 then c.toNat - 32 else c.toNat := by
  unfold Char.toUpper
  by_cases h : c.toNat ≥ 97 ∧ c.toNat ≤ 122
  · simp only [h, and_self, if_true]
    rw [toNat_ofNat_small]; omega
  · simp only [h, if_false]

theorem toNat_toLower (c : Char) :
    c.toLower.toNat = if 65 ≤ c.toNat ∧ c.toNat ≤ 90 then c.toNat + 32 else c.toNat := by
  unfold Char.toLower
  by_cases h : c.toNat ≥ 65 ∧ c.toNat ≤ 90
  · simp only [h, and_self, if_true]
    rw [toNat_ofNat_small]; omega
  · simp only [h, if_false]

theorem matchesIgnoreCase_iff (p c : Char) (hp : NotUpper p) :
    matchesIgnoreCase p c = true ↔ c.toLower = p := by
  unfold matchesIgnoreCase
  rw [beq_iff_eq, char_eq_iff_toNat, char_eq_iff_toNat c.toLower, toNat_toUpper, toNat_toUpper,
    toNat_toLower]
  split_ifs <;> omega

theorem matchesHere_iff (pat cs : List Char) (hp : ∀ p ∈ pat, NotUpper p) :
    matchesHere pat cs = true ↔ cs.map Char.toLower = pat := by
  induction pat generalizing cs with
  | nil => cases cs <;> simp [matchesHere]
  | cons p ps ih =>
    cases cs with
    | nil => simp [matchesHere]
    | cons c cs =>
      have h1 := matchesIgnoreCase_iff p c (hp p (by simp))
      have h2 := ih cs (fun q hq => hp q (by simp [hq]))
      simp [matchesHere, h1, h2]

theorem matchesAtEnd_iff (pat : String) (s : List Char) (hp : ∀ p ∈ pat.data, NotUpper p) :
    matchesAtEnd pat s = true ↔
      ∃ pre suf : List Char, s = pre ++ suf ∧ suf.map Char.toLower = pat.data := by
  unfold matchesAtEnd
  rw [matchesHere_iff _ _ hp]
  constructor
  · intro h
    exact ⟨s.take (s.length - pat.length), s.drop (s.length - pat.length),
      (List.take_append_drop _ _).symm, h⟩
  · rintro ⟨pre, suf, rfl, h⟩
    have hp : pat.length = pat.data.length := rfl
    have hl : suf.length = pat.data.length := by
      have := congrArg List.length h
      rwa [List.length_map] at this
    have : (pre ++ suf).length - pat.length = pre.length := by
      rw [List.length_append, hp, hl]; omega
    rw [this, List.drop_left]
    exact h

theorem knownExtensions_iff (assetId : String) :
    knownExtensions assetId = true ↔ EndsInImageSuffix assetId := by
  have h1 := matchesAtEnd_iff ".png" assetId.data (by decide)
  have h2 := matchesAtEnd_iff ".jpg" assetId.data (by decide)
  have h3 := matchesAtEnd_iff ".jpeg" assetId.data (by decide)
  have h4 := matchesAtEnd_iff ".gif" assetId.data (by decide)
  have h5 := matchesAtEnd_iff ".webp" assetId.data (by decide)
  unfold knownExtensions EndsInImageSuffix imageSuffixes
  simp only [List.any_cons, List.any_nil, Bool.or_false, Bool.or_eq_true, h1, h2, h3, h4, h5,
    List.mem_cons, List.mem_singleton, List.not_mem_nil, or_false, exists_eq_or_imp,
    exists_eq_left]
  constructor
  · rintro (⟨p, s, h, e⟩ | ⟨p, s, h, e⟩ | ⟨p, s, h, e⟩ | ⟨p, s, h, e⟩ | ⟨p, s, h, e⟩)
    · exact ⟨p, s, h, Or.inl e⟩
    · exact ⟨p, s, h, Or.inr (Or.inl e)⟩
    · exact ⟨p, s, h, Or.inr (Or.inr (Or.inl e))⟩
    · exact ⟨p, s, h, Or.inr (Or.inr (Or.inr (Or.inl e)))⟩
    · exact ⟨p, s, h, Or.inr (Or.inr (Or.inr (Or.inr e)))⟩
  · rintro ⟨p, s, h, e | e | e | e | e⟩
    · exact Or.inl ⟨p, s, h, e⟩
    · exact Or.inr (Or.inl ⟨p, s, h, e⟩)
    · exact Or.inr (Or.inr (Or.inl ⟨p, s, h, e⟩))
    · exact Or.inr (Or.inr (Or.inr (Or.inl ⟨p, s, h, e⟩)))
    · exact Or.inr (Or.inr (Or.inr (Or.inr ⟨p, s, h, e⟩)))

theorem knownExtensions_eq_false (assetId : String) (h : ¬ EndsInImageSuffix assetId) :
    knownExtensions assetId = false := by
  cases hk : knownExtensions assetId with
  | false => rfl
  | true => exact absurd ((knownExtensions_iff assetId).mp hk) h

/-! ## `split('/')` and `pop()` -/

theorem splitSlash_ne_nil (l : List Char) : splitSlash l ≠ [] := by
  induction l with
  | nil => simp [splitSlash]
  | cons c cs ih =>
    unfold splitSlash
    split
    · simp
    · split <;> simp

theorem splitSlash_of_not_mem (suf : List Char) (h : '/' ∉ suf) : splitSlash suf = [suf] := by
  induction suf with
  | nil => rfl
  | cons c cs ih =>
    have hc : c ≠ '/' := fun e => h (by simp [e])
    have hcs : '/' ∉ cs := fun e => h (by simp [e])
    simp [splitSlash, hc, ih hcs]

theorem splitSlash_append_slash (pre suf : List Char) :
    splitSlash (pre ++ '/' :: suf) = splitSlash pre ++ splitSlash suf := by
  induction pre with
  | nil => simp [splitSlash]
  | cons c cs ih =>
    by_cases hc : c = '/'
    · simp [splitSlash, hc, ih]
    · have hne := splitSlash_ne_nil cs
      cases hs : splitSlash cs with
      | nil => exact absurd hs hne
      | cons seg segs => simp [splitSlash, hc, ih, hs]

theorem splitPop_of_isAfterLastSlash (t : String) (suf : List Char)
    (h : IsAfterLastSlash t.data suf) : splitPop t = some (String.mk suf) := by
  obtain ⟨h1, h2⟩ := h
  unfold splitPop
  rcases h1 with h1 | ⟨pre, h1⟩
  · rw [h1, splitSlash_of_not_mem suf h2]; rfl
  · rw [h1, splitSlash_append_slash, splitSlash_of_not_mem suf h2]
    simp

/-! ## Filename resolution -/

theorem resolveFilename_of_known (assetId : String) (assetType : JSValue) (content : Bytes)
    (h : knownExtensions assetId = true) : resolveFilename assetId assetType content = assetId := by
  simp [resolveFilename, h]

/-- When the declared type yields no candidate, content sniffing decides the name. -/
theorem resolveFilename_sniffed (assetId : String) (assetType : JSValue) (content : Bytes)
    (hk : knownExtensions assetId = false)
    (ht : ∀ t, assetType = .string t → ¬ (0 < utf16Length t ∧ utf16Length t < 5)) :
    resolveFilename assetId assetType content =
      match getExtensionFromBytes content with
      | some e => assetId ++ "." ++ e
      | none => assetId := by
  have hext : ∀ e, getExtensionFromBytes content = some e → extensionTruthy (some e) = true := by
    intro e he
    unfold getExtensionFromBytes at he
    split_ifs at he <;> (cases he; rfl)
  unfold resolveFilename
  rw [hk]
  cases assetType with
  | string t =>
    have := ht t rfl
    cases hg : getExtensionFromBytes content with
    | none => simp [this, extensionTruthy, hg]
    | some e =>
      have he : ¬ e.data = [] := by simpa [extensionTruthy] using hext e hg
      simp [this, extensionTruthy, hg, he]
  | _ =>
    cases hg : getExtensionFromBytes content with
    | none => simp [extensionTruthy, hg]
    | some e =>
      have he : ¬ e.data = [] := by simpa [extensionTruthy] using hext e hg
      simp [extensionTruthy, hg, he]

theorem getExtensionFromBytes_png (rest : Bytes) (h : 8 ≤ rest.length) :
    getExtensionFromBytes (137 :: 80 :: 78 :: 71 :: rest) = some "png" := by
  have hl : ¬ (137 :: 80 :: 78 :: 71 :: rest : Bytes).length < 12 := by
    simp only [List.length_cons]; omega
  unfold getExtensionFromBytes
  rw [if_neg hl]
  simp [byteAt]

/-- C2 (as stated, refuted): the id "abc123" has no recognised suffix and the declared type is
"image/png", yet with an empty content the resolved name is "abc123", not "abc123.png". -/
theorem declared_image_png_not_used :
    ¬ EndsInImageSuffix "abc123" ∧
      resolveFilename "abc123" (.string "image/png") [] = "abc123" ∧
      resolveFilename "abc123" (.string "image/png") [] ≠ "abc123" ++ ".png" :=
  ⟨fun h => absurd ((knownExtensions_iff _).mpr h) (by decide), by decide, by decide⟩

/-- C2 (amended): for an id without a recognised suffix and the declared type "image/png",
which is 9 characters long and so is no candidate, content sniffing decides the name: the id
followed by "." and the sniffed extension, or the id unchanged when nothing is sniffed; in
particular a content of at least 12 bytes that begins 89 50 4E 47 gives the id plus ".png". -/
theorem resolveFilename_image_png (assetId : String) (content : Bytes)
    (hid : ¬ EndsInImageSuffix assetId) :
    (resolveFilename assetId (.string "image/png") content =
      match getExtensionFromBytes content with
      | some e => assetId ++ "." ++ e
      | none => assetId) ∧
    ∀ rest : Bytes, content = 137 :: 80 :: 78 :: 71 :: rest → 8 ≤ rest.length →
      resolveFilename assetId (.string "image/png") content = assetId ++ ".png" := by
  have hk := knownExtensions_eq_false assetId hid
  have hmain := resolveFilename_sniffed assetId (.string "image/png") content hk (by
    intro t ht
    cases ht
    decide)
  refine ⟨hmain, ?_⟩
  intro rest hc hr
  rw [hmain, hc, getExtensionFromBytes_png rest hr]
  exact String.append_assoc assetId "." "png"

/-- Witness of C2 (amended): the id "abc123" with a 12-byte JPEG-prefixed content. -/
theorem resolveFilename_image_png_witness :
    (resolveFilename "abc123" (.string "image/png") [255, 216, 255, 0, 0, 0, 0, 0, 0, 0, 0, 0] =
      match getExtensionFromBytes [255, 216, 255, 0, 0, 0, 0, 0, 0, 0, 0, 0] with
      | some e => "abc123" ++ "." ++ e
      | none => "abc123") ∧
    ∀ rest : Bytes, [255, 216, 255, 0, 0, 0, 0, 0, 0, 0, 0, 0] = 137 :: 80 :: 78 :: 71 :: rest →
      8 ≤ rest.length →
      resolveFilename "abc123" (.string "image/png") [255, 216, 255, 0, 0, 0, 0, 0, 0, 0, 0, 0] =
        "abc123" ++ ".png" :=
  resolveFilename_image_png "abc123" [255, 216, 255, 0, 0, 0, 0, 0, 0, 0, 0, 0]
    (fun h => absurd ((knownExtensions_iff _).mpr h) (by decide))

/-- C3: an id that ends in .png, .jpg, .jpeg, .gif or .webp, in any letter case, is the
resolved filename, unchanged, for every declared type and every decompressed content. -/
theorem resolveFilename_suffixed_id (assetId : String) (assetType : JSValue) (content : Bytes)
    (h : EndsInImageSuffix assetId) : resolveFilename assetId assetType content = assetId :=
  resolveFilename_of_known assetId assetType content ((knownExtensions_iff assetId).mpr h)

/-- Witness of C3: the id "abc123.JpG" with declared type "png" and a PNG-prefixed content. -/
theorem resolveFilename_suffixed_id_witness :
    EndsInImageSuffix "abc123.JpG" ∧
      resolveFilename "abc123.JpG" (.string "png")
        [137, 80, 78, 71, 0, 0, 0, 0, 0, 0, 0, 0] = "abc123.JpG" :=
  ⟨(knownExtensions_iff _).mp (by decide),
    resolveFilename_suffixed_id "abc123.JpG" (.string "png")
      [137, 80, 78, 71, 0, 0, 0, 0, 0, 0, 0, 0] ((knownExtensions_iff _).mp (by decide))⟩

/-- C4: a buffer of fewer than 12 bytes yields no extension, whatever its leading bytes. -/
theorem getExtensionFromBytes_short (uint8Array : Bytes) (h : uint8Array.length < 12) :
    getExtensionFromBytes uint8Array = none := by
  simp [getExtensionFromBytes, h]

/-- Witness of C4: the 4-byte buffer FF D8 FF 00. -/
theorem getExtensionFromBytes_short_witness :
    ([255, 216, 255, 0] : Bytes).length < 12 ∧ getExtensionFromBytes [255, 216, 255, 0] = none :=
  ⟨by decide, getExtensionFromBytes_short [255, 216, 255, 0] (by decide)⟩

/-- What the four checks of `getExtensionFromBytes` accept on a buffer of at least 12 bytes;
the last one asks for 57 45 50 50 at bytes 8..11. -/
theorem getExtensionFromBytes_signatures (uint8Array : Bytes) (h : 12 ≤ uint8Array.length) :
    (getExtensionFromBytes uint8Array = some "png" ↔ uint8Array.take 4 = [137, 80, 78, 71]) ∧
    (getExtensionFromBytes uint8Array = some "jpg" ↔ uint8Array.take 3 = [255, 216, 255]) ∧
    (getExtensionFromBytes uint8Array = some "gif" ↔ uint8Array.take 4 = [71, 73, 70, 56]) ∧
    (getExtensionFromBytes uint8Array = some "webp" ↔
      uint8Array.take 4 = [82, 73, 70, 70] ∧ (uint8Array.drop 8).take 4 = [87, 69, 80, 80]) := by
  rcases uint8Array with _ | ⟨b0, _ | ⟨b1, _ | ⟨b2, _ | ⟨b3, _ | ⟨b4, _ | ⟨b5, _ | ⟨b6, _ |
    ⟨b7, _ | ⟨b8, _ | ⟨b9, _ | ⟨b10, _ | ⟨b11, rest⟩⟩⟩⟩⟩⟩⟩⟩⟩⟩⟩⟩ <;>
    simp at h
  have hlen : ¬ (List.length (b0 :: b1 :: b2 :: b3 :: b4 :: b5 :: b6 :: b7 :: b8 :: b9 :: b10 ::
      b11 :: rest : Bytes) < 12) := by
    simp only [List.length_cons]; omega
  unfold getExtensionFromBytes
  rw [if_neg hlen]
  simp only [byteAt, List.get?, List.take, List.drop, Option.some.injEq, List.cons.injEq, and_true]
  split_ifs <;> simp_all

/-- C5 (the code at the failing inputs): a buffer of at least 12 bytes whose bytes 0..3 are
52 49 46 46 and whose bytes 8..11 are 57 45 42 50 yields no extension, because the code
compares byte 10 with 80 where the WEBP signature has 66. -/
theorem getExtensionFromBytes_misses_webp (uint8Array : Bytes) (h : 12 ≤ uint8Array.length)
    (riff : uint8Array.take 4 = [82, 73, 70, 70])
    (webp : (uint8Array.drop 8).take 4 = [87, 69, 66, 80]) :
    getExtensionFromBytes uint8Array = none := by
  rcases uint8Array with _ | ⟨b0, _ | ⟨b1, _ | ⟨b2, _ | ⟨b3, _ | ⟨b4, _ | ⟨b5, _ | ⟨b6, _ |
    ⟨b7, _ | ⟨b8, _ | ⟨b9, _ | ⟨b10, _ | ⟨b11, rest⟩⟩⟩⟩⟩⟩⟩⟩⟩⟩⟩⟩ <;>
    simp at h
  simp only [List.take, List.drop, List.cons.injEq, and_true] at riff webp
  obtain ⟨r0, r1, r2, r3⟩ := riff
  obtain ⟨w8, w9, w10, w11⟩ := webp
  subst r0 r1 r2 r3 w8 w9 w10 w11
  have hlen : ¬ (List.length (82 :: 73 :: 70 :: 70 :: b4 :: b5 :: b6 :: b7 :: 87 :: 69 :: 66 ::
      80 :: rest : Bytes) < 12) := by
    simp only [List.length_cons]; omega
  unfold getExtensionFromBytes
  rw [if_neg hlen]
  simp [byteAt]

/-- Witness of C5: the 12-byte buffer "RIFF", 24 00 00 00, "WEBP". -/
theorem getExtensionFromBytes_misses_webp_witness :
    getExtensionFromBytes [82, 73, 70, 70, 36, 0, 0, 0, 87, 69, 66, 80] = none :=
  getExtensionFromBytes_misses_webp [82, 73, 70, 70, 36, 0, 0, 0, 87, 69, 66, 80]
    (by decide) (by decide) (by decide)

/-- C6 (as stated, refuted): with the declared type absent, the 4-byte content 89 50 4E 47
begins with the PNG signature, yet the resolved name of "abc123" is "abc123". -/
theorem png_prefix_too_short :
    ¬ EndsInImageSuffix "abc123" ∧
      resolveFilename "abc123" .undefined [137, 80, 78, 71] = "abc123" ∧
      resolveFilename "abc123" .undefined [137, 80, 78, 71] ≠ "abc123" ++ ".png" :=
  ⟨fun h => absurd ((knownExtensions_iff _).mpr h) (by decide), by decide, by decide⟩

/-- C6 (amended): for an id without a recognised suffix, the declared type absent, and a
content of at least 12 bytes whose first four bytes are 89 50 4E 47, the resolved name is
the id followed by ".png". -/
theorem resolveFilename_png_sniffed (assetId : String) (rest : Bytes)
    (hid : ¬ EndsInImageSuffix assetId) (hlen : 8 ≤ rest.length) :
    resolveFilename assetId .undefined (137 :: 80 :: 78 :: 71 :: rest) = assetId ++ ".png" := by
  have hk := knownExtensions_eq_false assetId hid
  rw [resolveFilename_sniffed assetId .undefined _ hk (by intro t ht; cases ht),
    getExtensionFromBytes_png rest hlen]
  exact String.append_assoc assetId "." "png"

/-- Witness of C6 (amended): the id "abc123" with the first 12 bytes of a PNG file. -/
theorem resolveFilename_png_sniffed_witness :
    ¬ EndsInImageSuffix "abc123" ∧ 8 ≤ ([0, 0, 0, 13, 73, 72, 68, 82] : Bytes).length ∧
      resolveFilename "abc123" .undefined [137, 80, 78, 71, 0, 0, 0, 13, 73, 72, 68, 82] =
        "abc123" ++ ".png" :=
  ⟨fun h => absurd ((knownExtensions_iff _).mpr h) (by decide), by decide,
    resolveFilename_png_sniffed "abc123" [0, 0, 0, 13, 73, 72, 68, 82]
      (fun h => absurd ((knownExtensions_iff _).mpr h) (by decide)) (by decide)⟩

theorem data_ne_nil_of_utf16Length_pos (t : String) (h : 0 < utf16Length t) : t.data ≠ [] := by
  intro hd
  simp [utf16Length, hd] at h

/-- C10: for an id without a recognised suffix and a declared type of 1 to 4 UTF-16 code units
whose part after the last '/' (all of it when it has no '/') is non-empty, the resolved name
is the id, ".", and that part, whatever the decompressed content is. -/
theorem resolveFilename_short_declared_type (assetId t : String) (suf : List Char)
    (content : Bytes) (hid : ¬ EndsInImageSuffix assetId)
    (hlen : 1 ≤ utf16Length t ∧ utf16Length t ≤ 4)
    (hsuf : IsAfterLastSlash t.data suf) (hne : suf ≠ []) :
    resolveFilename assetId (.string t) content = assetId ++ "." ++ String.mk suf := by
  have hk := knownExtensions_eq_false assetId hid
  have hpop := splitPop_of_isAfterLastSlash t suf hsuf
  have hlen2 : 0 < utf16Length t ∧ utf16Length t < 5 := by omega
  have ht : t.data ≠ [] := data_ne_nil_of_utf16Length_pos t hlen2.1
  simp [resolveFilename, hk, JSValue.truthy, ht, hlen2, hpop, extensionTruthy, hne]

/-- Witness of C10: declared type "a/b" wins over a PNG-prefixed content. -/
theorem resolveFilename_short_declared_type_witness :
    ¬ EndsInImageSuffix "abc123" ∧ (1 ≤ utf16Length "a/b" ∧ utf16Length "a/b" ≤ 4) ∧
      IsAfterLastSlash "a/b".data ['b'] ∧ ['b'] ≠ [] ∧
      resolveFilename "abc123" (.string "a/b") [137, 80, 78, 71, 0, 0, 0, 13, 73, 72, 68, 82] =
        "abc123" ++ "." ++ String.mk ['b'] :=
  ⟨fun h => absurd ((knownExtensions_iff _).mpr h) (by decide), by decide,
    ⟨Or.inr ⟨['a'], rfl⟩, by decide⟩, by decide,
    resolveFilename_short_declared_type "abc123" "a/b" ['b']
      [137, 80, 78, 71, 0, 0, 0, 13, 73, 72, 68, 82]
      (fun h => absurd ((knownExtensions_iff _).mpr h) (by decide)) (by decide)
      ⟨Or.inr ⟨['a'], rfl⟩, by decide⟩ (by decide)⟩

/-! ## The header and the metadata block -/

/-- C7: on a non-empty buffer whose first byte is not 111 the decode fails with the bad-magic
error with the cursor at offset 1, nothing shown and `decodeRPack` never called; the outcome
is the same for all bytes after the first (and for every decompressor and parser). -/
theorem handleFileSelect_bad_magic (decodeRPack : Bytes → Option Bytes)
    (parseJson : Bytes → Option MainJson) (magic : Byte) (rest : Bytes) (h : magic ≠ 111) :
    handleFileSelect decodeRPack parseJson (magic :: rest) =
      some { pos := 1, structureView := none, results := [], decodeCalls := [],
             status := .error .invalidMagic } := by
  simp [handleFileSelect, readByte, h]

/-- Witness of C7: a buffer that starts with 110. -/
theorem handleFileSelect_bad_magic_witness :
    (110 : Byte) ≠ 111 ∧
      handleFileSelect identityRPack (constantParse demoJson) (110 :: [0, 1, 0, 0, 0, 7]) =
        some { pos := 1, structureView := none, results := [], decodeCalls := [],
               status := .error .invalidMagic } :=
  ⟨by decide,
    handleFileSelect_bad_magic identityRPack (constantParse demoJson) 110 [0, 1, 0, 0, 0, 7]
      (by decide)⟩

/-- C8: on a buffer that starts with 111 and a second byte other than 0 the decode fails with
the unsupported-version error, which differs from the bad-magic error; the cursor stands at
offset 2, no metadata length or block is read and `decodeRPack` is never called. -/
theorem handleFileSelect_bad_version (decodeRPack : Bytes → Option Bytes)
    (parseJson : Bytes → Option MainJson) (version : Byte) (rest : Bytes) (h : version ≠ 0) :
    handleFileSelect decodeRPack parseJson (111 :: version :: rest) =
      some { pos := 2, structureView := none, results := [], decodeCalls := [],
             status := .error .unsupportedVersion } ∧
    DecodeError.unsupportedVersion ≠ DecodeError.invalidMagic := by
  refine ⟨?_, by decide⟩
  simp [handleFileSelect, readByte, h]

/-- Witness of C8: a buffer that starts with 111, 1. -/
theorem handleFileSelect_bad_version_witness :
    (1 : Byte) ≠ 0 ∧
      handleFileSelect identityRPack (constantParse demoJson) (111 :: 1 :: [1, 0, 0, 0, 7]) =
        some { pos := 2, structureView := none, results := [], decodeCalls := [],
               status := .error .unsupportedVersion } ∧
      DecodeError.unsupportedVersion ≠ DecodeError.invalidMagic :=
  ⟨by decide,
    handleFileSelect_bad_version identityRPack (constantParse demoJson) 1 [1, 0, 0, 0, 7]
      (by decide)⟩

/-- C9: on a container with magic 111, version 0 and a metadata block that decompresses and
parses to a document whose `module.assets` is absent or empty, the decode succeeds with no
resolved asset and shows the parsed document (with its `module.name`); the cursor stops at
the end of the metadata block and the outcome is the same for all bytes that follow it. -/
theorem handleFileSelect_no_assets (decodeRPack : Bytes → Option Bytes)
    (parseJson : Bytes → Option MainJson) (b0 b1 b2 b3 : Byte) (metadata rest decoded : Bytes)
    (mainJson : MainJson) (moduleInfo : ModuleInfo)
    (hlen : metadata.length = b0.val + 256 * b1.val + 65536 * b2.val + 16777216 * b3.val)
    (hdec : decodeRPack metadata = some decoded) (hparse : parseJson decoded = some mainJson)
    (hmod : mainJson.module = some moduleInfo)
    (hassets : moduleInfo.assets = none ∨ moduleInfo.assets = some []) :
    handleFileSelect decodeRPack parseJson
        (111 :: 0 :: b0 :: b1 :: b2 :: b3 :: (metadata ++ rest)) =
      some { pos := 6 + metadata.length, structureView := some mainJson, results := [],
             decodeCalls := [metadata], status := .noAssets } ∧
    mainJson.module.map ModuleInfo.name = some moduleInfo.name := by
  have htake : List.take (b0.val + 256 * b1.val + 65536 * b2.val + 16777216 * b3.val)
      (metadata ++ rest) = metadata := by
    rw [← hlen, List.take_left]
  refine ⟨?_, by simp [hmod]⟩
  rcases hassets with ha | ha <;>
    simp [handleFileSelect, readByte, readLength, readData, htake, hdec, hparse, hmod, ha, hlen]

/-- Witness of C9: a 2-byte metadata block followed by six more bytes. -/
theorem handleFileSelect_no_assets_witness :
    handleFileSelect identityRPack (constantParse emptyJson)
        (111 :: 0 :: 2 :: 0 :: 0 :: 0 :: ([123, 125] ++ [1, 9, 9, 9, 9, 9])) =
      some { pos := 6 + ([123, 125] : Bytes).length, structureView := some emptyJson,
             results := [], decodeCalls := [[123, 125]], status := .noAssets } ∧
    emptyJson.module.map ModuleInfo.name = some (ModuleInfo.mk "Demo" (some [])).name :=
  handleFileSelect_no_assets identityRPack (constantParse emptyJson) 2 0 0 0 [123, 125]
    [1, 9, 9, 9, 9, 9] [123, 125] emptyJson ⟨"Demo", some []⟩ (by decide) rfl rfl rfl
    (Or.inr rfl)

/-! ## The asset loop -/

theorem drop_succ_of_drop {α : Type} (l : List α) (n : Nat) (a : α) (rest : List α)
    (h : l.drop n = a :: rest) : l.drop (n + 1) = rest := by
  have := List.drop_drop 1 n l
  rw [h] at this
  simpa [Nat.add_comm] using this.symm

theorem readByte_of_drop (buf : Bytes) (pos : Nat) (b : Byte) (rest : Bytes)
    (h : buf.drop pos = b :: rest) : readByte buf pos = .ok (b, pos + 1) := by
  have : buf.get? pos = some b := by
    have := List.head?_drop buf pos
    rw [h] at this
    simpa using this.symm
  unfold readByte
  rw [this]

theorem lt_length_of_drop {α : Type} (l : List α) (n : Nat) (a : α) (rest : List α)
    (h : l.drop n = a :: rest) : n < l.length := by
  by_contra hn
  rw [List.drop_of_length_le (by omega)] at h
  cases h

theorem assetLoop_stop (decodeRPack : Bytes → Option Bytes) (buf : Bytes)
    (assets : List AssetDescriptor) (fuel : Nat) (s : LoopState)
    (h : ¬ (s.pos < buf.length ∧ s.assetIndex < assets.length)) :
    assetLoop decodeRPack buf assets (fuel + 1) s = some (s, none) := by
  simp only [assetLoop, h, if_false]

theorem assetLoop_frame (decodeRPack : Bytes → Option Bytes) (buf : Bytes)
    (assets : List AssetDescriptor) (fuel : Nat) (s : LoopState) (c0 c1 c2 c3 : Byte)
    (rest out : Bytes) (d : AssetDescriptor)
    (hpos : buf.drop s.pos = 1 :: c0 :: c1 :: c2 :: c3 :: rest)
    (hidx : assets.get? s.assetIndex = some d)
    (hdec : decodeRPack
      (rest.take (c0.val + 256 * c1.val + 65536 * c2.val + 16777216 * c3.val)) = some out) :
    assetLoop decodeRPack buf assets (fuel + 1) s =
      assetLoop decodeRPack buf assets fuel
        { pos := s.pos + 5 + (c0.val + 256 * c1.val + 65536 * c2.val + 16777216 * c3.val),
          assetIndex := s.assetIndex + 1,
          results := s.results ++ [⟨resolveFilename d.id d.declaredType out, out⟩],
          decodeCalls := s.decodeCalls ++
            [rest.take (c0.val + 256 * c1.val + 65536 * c2.val + 16777216 * c3.val)] } := by
  have h1 := lt_length_of_drop _ _ _ _ hpos
  have h2 : s.assetIndex < assets.length := by
    by_contra hn
    rw [List.get?_eq_none.mpr (by omega)] at hidx
    cases hidx
  have hb := readByte_of_drop _ _ _ _ hpos
  have hd1 := drop_succ_of_drop _ _ _ _ hpos
  have hd2 : buf.drop (s.pos + 1 + 4) = rest := by
    have := List.drop_drop 4 (s.pos + 1) buf
    rw [hd1] at this
    simpa [Nat.add_comm] using this.symm
  have harith : s.pos + 1 + 4 + (c0.val + 256 * c1.val + 65536 * c2.val + 16777216 * c3.val)
      = s.pos + 5 + (c0.val + 256 * c1.val + 65536 * c2.val + 16777216 * c3.val) := by omega
  simp only [assetLoop, h1, h2, and_self, if_true, hb, readLength, hd1, readData, hd2, hdec, hidx,
    harith]
  simp

theorem assetLoop_frame_rejected (decodeRPack : Bytes → Option Bytes) (buf : Bytes)
    (assets : List AssetDescriptor) (fuel : Nat) (s : LoopState) (c0 c1 c2 c3 : Byte)
    (rest : Bytes) (hpos : buf.drop s.pos = 1 :: c0 :: c1 :: c2 :: c3 :: rest)
    (hidx : s.assetIndex < assets.length)
    (hdec : decodeRPack
      (rest.take (c0.val + 256 * c1.val + 65536 * c2.val + 16777216 * c3.val)) = none) :
    assetLoop decodeRPack buf assets (fuel + 1) s =
      some ({ s with
              pos := s.pos + 5 + (c0.val + 256 * c1.val + 65536 * c2.val + 16777216 * c3.val),
              decodeCalls := s.decodeCalls ++
                [rest.take (c0.val + 256 * c1.val + 65536 * c2.val + 16777216 * c3.val)] },
            some .decompression) := by
  have h1 := lt_length_of_drop _ _ _ _ hpos
  have hb := readByte_of_drop _ _ _ _ hpos
  have hd1 := drop_succ_of_drop _ _ _ _ hpos
  have hd2 : buf.drop (s.pos + 1 + 4) = rest := by
    have := List.drop_drop 4 (s.pos + 1) buf
    rw [hd1] at this
    simpa [Nat.add_comm] using this.symm
  have harith : s.pos + 1 + 4 + (c0.val + 256 * c1.val + 65536 * c2.val + 16777216 * c3.val)
      = s.pos + 5 + (c0.val + 256 * c1.val + 65536 * c2.val + 16777216 * c3.val) := by omega
  simp only [assetLoop, h1, hidx, and_self, if_true, hb, readLength, hd1, readData, hd2, hdec,
    harith]
  simp

/-- The outcome of `handleFileSelect` once the asset loop has returned. -/
theorem handleFileSelect_with_assets (decodeRPack : Bytes → Option Bytes)
    (parseJson : Bytes → Option MainJson) (b0 b1 b2 b3 : Byte) (tail decoded : Bytes)
    (mainJson : MainJson) (moduleInfo : ModuleInfo) (assets : List AssetDescriptor)
    (hdec : decodeRPack
      (tail.take (b0.val + 256 * b1.val + 65536 * b2.val + 16777216 * b3.val)) = some decoded)
    (hparse : parseJson decoded = some mainJson) (hmod : mainJson.module = some moduleInfo)
    (hassets : moduleInfo.assets = some assets) (hne : assets ≠ []) :
    handleFileSelect decodeRPack parseJson (111 :: 0 :: b0 :: b1 :: b2 :: b3 :: tail) =
      (assetLoop decodeRPack (111 :: 0 :: b0 :: b1 :: b2 :: b3 :: tail) assets (tail.length + 6)
        { pos := 6 + (b0.val + 256 * b1.val + 65536 * b2.val + 16777216 * b3.val),
          assetIndex := 0, results := [],
          decodeCalls :=
            [tail.take (b0.val + 256 * b1.val + 65536 * b2.val + 16777216 * b3.val)] }).map
        fun r =>
          { pos := r.1.pos, structureView := some mainJson, results := r.1.results,
            decodeCalls := r.1.decodeCalls,
            status :=
              match r.2 with
              | some e => .error e
              | none => .extracted moduleInfo.name assets.length } := by
  have h0 : assets.length ≠ 0 := by
    intro h
    exact hne (List.length_eq_zero.mp h)
  have hpos : 0 + 1 + 1 + 4 + (b0.val + 256 * b1.val + 65536 * b2.val + 16777216 * b3.val) =
      6 + (b0.val + 256 * b1.val + 65536 * b2.val + 16777216 * b3.val) := by omega
  have hfuel : (111 :: 0 :: b0 :: b1 :: b2 :: b3 :: tail).length = tail.length + 6 := by
    simp
  simp only [handleFileSelect, readByte, readLength, readData, List.get?, List.drop, hdec,
    hparse, hmod, hassets, h0, hpos, hfuel, ne_eq, not_true_eq_false, if_false]
  cases assetLoop decodeRPack (111 :: 0 :: b0 :: b1 :: b2 :: b3 :: tail) assets (tail.length + 6)
      { pos := 6 + (b0.val + 256 * b1.val + 65536 * b2.val + 16777216 * b3.val),
        assetIndex := 0, results := [],
        decodeCalls :=
          [tail.take (b0.val + 256 * b1.val + 65536 * b2.val + 16777216 * b3.val)] } with
  | none => rfl
  | some r =>
    obtain ⟨st, e⟩ := r
    cases e <;> rfl

/-- C1 (what the code does): when the frame of the first asset declares more payload bytes
than remain in the buffer, `readData` hands the remaining bytes to `decodeRPack` and moves the
cursor past the end of the buffer. If `decodeRPack` accepts them the decode succeeds with an
asset made from the shortened payload; if it rejects them the error is the decompression
error. In neither case is the error the out-of-bounds `RangeError`. -/
theorem handleFileSelect_truncated_frame (decodeRPack : Bytes → Option Bytes)
    (parseJson : Bytes → Option MainJson) (b0 b1 b2 b3 c0 c1 c2 c3 : Byte)
    (metadata decoded payload : Bytes) (mainJson : MainJson) (moduleInfo : ModuleInfo)
    (d : AssetDescriptor) (ds : List AssetDescriptor)
    (hlen : metadata.length = b0.val + 256 * b1.val + 65536 * b2.val + 16777216 * b3.val)
    (hdec : decodeRPack metadata = some decoded) (hparse : parseJson decoded = some mainJson)
    (hmod : mainJson.module = some moduleInfo) (hassets : moduleInfo.assets = some (d :: ds))
    (htrunc : payload.length < c0.val + 256 * c1.val + 65536 * c2.val + 16777216 * c3.val) :
    handleFileSelect decodeRPack parseJson
        (111 :: 0 :: b0 :: b1 :: b2 :: b3 :: (metadata ++ 1 :: c0 :: c1 :: c2 :: c3 :: payload)) =
      some { pos := 6 + metadata.length + 5 +
               (c0.val + 256 * c1.val + 65536 * c2.val + 16777216 * c3.val),
             structureView := some mainJson,
             results :=
               match decodeRPack payload with
               | some out => [⟨resolveFilename d.id d.declaredType out, out⟩]
               | none => [],
             decodeCalls := [metadata, payload],
             status :=
               match decodeRPack payload with
               | some _ => .extracted moduleInfo.name (ds.length + 1)
               | none => .error .decompression } := by
  have htake : List.take (b0.val + 256 * b1.val + 65536 * b2.val + 16777216 * b3.val)
      (metadata ++ 1 :: c0 :: c1 :: c2 :: c3 :: payload) = metadata := by
    rw [← hlen, List.take_left]
  have htakeP : List.take (c0.val + 256 * c1.val + 65536 * c2.val + 16777216 * c3.val) payload =
      payload := List.take_of_length_le (by omega)
  rw [handleFileSelect_with_assets decodeRPack parseJson b0 b1 b2 b3 _ decoded mainJson moduleInfo
    (d :: ds) (by rw [htake]; exact hdec) hparse hmod hassets (by simp)]
  rw [htake, ← hlen]
  have hfuel : (metadata ++ 1 :: c0 :: c1 :: c2 :: c3 :: payload).length + 6 =
      (metadata.length + payload.length + 9) + 1 + 1 := by
    simp only [List.length_append, List.length_cons]; omega
  have hdrop : List.drop (6 + metadata.length)
      (111 :: 0 :: b0 :: b1 :: b2 :: b3 :: (metadata ++ 1 :: c0 :: c1 :: c2 :: c3 :: payload)) =
      1 :: c0 :: c1 :: c2 :: c3 :: payload := by
    rw [Nat.add_comm 6]
    simp only [List.drop_succ_cons]
    exact List.drop_left _ _
  cases hout : decodeRPack payload with
  | none =>
    rw [hfuel, assetLoop_frame_rejected decodeRPack _ (d :: ds) _
      { pos := 6 + metadata.length, assetIndex := 0, results := [], decodeCalls := [metadata] }
      c0 c1 c2 c3 payload hdrop (by simp) (by rw [htakeP]; exact hout)]
    simp [htakeP]
  | some out =>
    rw [hfuel, assetLoop_frame decodeRPack _ (d :: ds) _
      { pos := 6 + metadata.length, assetIndex := 0, results := [], decodeCalls := [metadata] }
      c0 c1 c2 c3 payload out d hdrop rfl (by rw [htakeP]; exact hout)]
    rw [assetLoop_stop]
    · simp [htakeP]
    · simp only [List.length_cons, List.length_append]
      omega

/-- Witness of C1: a frame that declares 10 payload bytes where 2 remain. -/
theorem handleFileSelect_truncated_frame_witness :
    ([137, 80] : Bytes).length <
        (10 : Byte).val + 256 * (0 : Byte).val + 65536 * (0 : Byte).val +
          16777216 * (0 : Byte).val ∧
      handleFileSelect identityRPack (constantParse demoJson)
          (111 :: 0 :: 2 :: 0 :: 0 :: 0 :: ([123, 125] ++ 1 :: 10 :: 0 :: 0 :: 0 :: [137, 80])) =
        some { pos := 23, structureView := some demoJson,
               results := [⟨"img1", [137, 80]⟩],
               decodeCalls := [[123, 125], [137, 80]],
               status := .extracted "Demo" 1 } :=
  ⟨by decide,
    handleFileSelect_truncated_frame identityRPack (constantParse demoJson) 2 0 0 0 10 0 0 0
      [123, 125] [123, 125] [137, 80] demoJson ⟨"Demo", some [⟨"img1", .string "image/png"⟩]⟩
      ⟨"img1", .string "image/png"⟩ [] (by decide) rfl rfl rfl rfl (by decide)⟩

/-! ## Step 3: content sniffing -/

/-- C11: for an id without a recognised suffix, when the declared type yields no candidate
(absent, not a string, empty, 5 or more code units long, or a short string ending in '/'),
the resolved name is the id, ".", and the extension that `getExtensionFromBytes` returns for
the decompressed content, and the id unchanged when it returns none. -/
theorem resolveFilename_no_candidate (assetId : String) (assetType : JSValue) (content : Bytes)
    (hid : ¬ EndsInImageSuffix assetId) (hno : NoDeclaredCandidate assetType) :
    resolveFilename assetId assetType content =
      match getExtensionFromBytes content with
      | some e => assetId ++ "." ++ e
      | none => assetId := by
  have hk := knownExtensions_eq_false assetId hid
  rcases hno with hns | ⟨t, rfl, ht⟩
  · exact resolveFilename_sniffed assetId assetType content hk
      (fun t ht => absurd ht (hns t))
  · by_cases hlen : 0 < utf16Length t ∧ utf16Length t < 5
    · rcases ht with ht | ht | ⟨pre, ht⟩
      · exact absurd ht (data_ne_nil_of_utf16Length_pos t hlen.1)
      · omega
      · have hpop : splitPop t = some (String.mk []) :=
          splitPop_of_isAfterLastSlash t [] ⟨Or.inr ⟨pre, ht⟩, List.not_mem_nil _⟩
        have hne : t.data ≠ [] := data_ne_nil_of_utf16Length_pos t hlen.1
        have hext : ∀ e, getExtensionFromBytes content = some e →
            extensionTruthy (some e) = true := by
          intro e he
          unfold getExtensionFromBytes at he
          split_ifs at he <;> (cases he; rfl)
        cases hg : getExtensionFromBytes content with
        | none => simp [resolveFilename, hk, JSValue.truthy, hne, hlen, hpop, extensionTruthy, hg]
        | some e =>
          have he : ¬ e.data = [] := by simpa [extensionTruthy] using hext e hg
          simp [resolveFilename, hk, JSValue.truthy, hne, hlen, hpop, extensionTruthy, hg, he]
    · exact resolveFilename_sniffed assetId (.string t) content hk
        (fun t2 ht2 => by cases ht2; exact hlen)

/-- Witness of C11: the declared type "a/" with the first 12 bytes of a GIF file. -/
theorem resolveFilename_no_candidate_witness :
    ¬ EndsInImageSuffix "abc123" ∧ NoDeclaredCandidate (.string "a/") ∧
      resolveFilename "abc123" (.string "a/") [71, 73, 70, 56, 57, 97, 1, 0, 1, 0, 0, 0] =
        match getExtensionFromBytes [71, 73, 70, 56, 57, 97, 1, 0, 1, 0, 0, 0] with
        | some e => "abc123" ++ "." ++ e
        | none => "abc123" :=
  ⟨fun h => absurd ((knownExtensions_iff _).mpr h) (by decide),
    Or.inr ⟨"a/", rfl, Or.inr (Or.inr ⟨['a'], rfl⟩)⟩,
    resolveFilename_no_candidate "abc123" (.string "a/") [71, 73, 70, 56, 57, 97, 1, 0, 1, 0, 0, 0]
      (fun h => absurd ((knownExtensions_iff _).mpr h) (by decide))
      (Or.inr ⟨"a/", rfl, Or.inr (Or.inr ⟨['a'], rfl⟩)⟩)⟩

/-! ## `readLength` -/

/-- C13: with at least 4 bytes at the cursor `readLength` returns their little-endian value
b0 + 256 b1 + 65536 b2 + 16777216 b3, which is below 2^32, and moves the cursor by exactly 4;
with fewer than 4 bytes at the cursor it fails with the out-of-bounds error. -/
theorem readLength_spec (buf : Bytes) (pos : Nat) :
    (pos + 4 ≤ buf.length →
      ∃ b0 b1 b2 b3 : Byte,
        buf.get? pos = some b0 ∧ buf.get? (pos + 1) = some b1 ∧ buf.get? (pos + 2) = some b2 ∧
        buf.get? (pos + 3) = some b3 ∧
        readLength buf pos =
          .ok (b0.val + 256 * b1.val + 65536 * b2.val + 16777216 * b3.val, pos + 4) ∧
        b0.val + 256 * b1.val + 65536 * b2.val + 16777216 * b3.val < 2 ^ 32) ∧
    (buf.length < pos + 4 → readLength buf pos = .error .rangeError) := by
  constructor
  · intro h
    have hl : 4 ≤ (buf.drop pos).length := by rw [List.length_drop]; omega
    have hg : ∀ i, (buf.drop pos).get? i = buf.get? (pos + i) := by
      intro i
      simp [List.getElem?_drop]
    rcases hd : buf.drop pos with _ | ⟨b0, _ | ⟨b1, _ | ⟨b2, _ | ⟨b3, rest⟩⟩⟩⟩ <;>
      rw [hd] at hl <;> simp at hl
    refine ⟨b0, b1, b2, b3, ?_, ?_, ?_, ?_, ?_, ?_⟩
    · have := hg 0; rw [hd] at this; simpa using this.symm
    · have := hg 1; rw [hd] at this; simpa using this.symm
    · have := hg 2; rw [hd] at this; simpa using this.symm
    · have := hg 3; rw [hd] at this; simpa using this.symm
    · unfold readLength; rw [hd]
    · have h0 := b0.isLt; have h1 := b1.isLt; have h2 := b2.isLt; have h3 := b3.isLt
      omega
  · intro h
    have hl : (buf.drop pos).length < 4 := by rw [List.length_drop]; omega
    unfold readLength
    rcases hd : buf.drop pos with _ | ⟨b0, _ | ⟨b1, _ | ⟨b2, _ | ⟨b3, rest⟩⟩⟩⟩ <;>
      first | rfl | (rw [hd] at hl; simp only [List.length_cons] at hl; omega)

/-- Witness of C13: the bytes 0A 01 00 00 at offset 2 of a 6-byte buffer give 266 and move
the cursor to 6; at offset 3 only 3 bytes remain and the read fails. -/
theorem readLength_spec_witness :
    readLength [111, 0, 10, 1, 0, 0] 2 = .ok (266, 6) ∧
      readLength [111, 0, 10, 1, 0, 0] 3 = .error .rangeError := by
  refine ⟨?_, (readLength_spec [111, 0, 10, 1, 0, 0] 3).2 (by decide)⟩
  obtain ⟨b0, b1, b2, b3, h0, h1, h2, h3, hr, _⟩ :=
    (readLength_spec [111, 0, 10, 1, 0, 0] 2).1 (by decide)
  simp only [List.get?, Option.some.injEq] at h0 h1 h2 h3
  subst h0 h1 h2 h3
  exact hr

/-! ## One iteration of the asset loop, by the bytes at the cursor -/

theorem drop_add_of_drop {α : Type} (l : List α) (n k : Nat) (d : List α)
    (h : l.drop n = d) : l.drop (n + k) = d.drop k := by
  rw [← h, List.drop_drop, Nat.add_comm]

theorem lt_length_iff_drop_ne_nil {α : Type} (l : List α) (n : Nat) :
    n < l.length ↔ l.drop n ≠ [] := by
  rw [Ne, List.drop_eq_nil_iff]
  omega

theorem assetLoop_marker_zero (decodeRPack : Bytes → Option Bytes) (buf : Bytes)
    (assets : List AssetDescriptor) (fuel : Nat) (s : LoopState) (rest : Bytes)
    (hpos : buf.drop s.pos = 0 :: rest) (hidx : s.assetIndex < assets.length) :
    assetLoop decodeRPack buf assets (fuel + 1) s = some ({ s with pos := s.pos + 1 }, none) := by
  have h1 := lt_length_of_drop _ _ _ _ hpos
  have hb := readByte_of_drop _ _ _ _ hpos
  simp only [assetLoop, h1, hidx, and_self, if_true, hb]

theorem assetLoop_skip (decodeRPack : Bytes → Option Bytes) (buf : Bytes)
    (assets : List AssetDescriptor) (fuel : Nat) (s : LoopState) (marker : Byte) (rest : Bytes)
    (hpos : buf.drop s.pos = marker :: rest) (h0 : marker ≠ 0) (h1 : marker ≠ 1)
    (hidx : s.assetIndex < assets.length) :
    assetLoop decodeRPack buf assets (fuel + 1) s =
      assetLoop decodeRPack buf assets fuel { s with pos := s.pos + 1 } := by
  have hl := lt_length_of_drop _ _ _ _ hpos
  have hb := readByte_of_drop _ _ _ _ hpos
  simp only [assetLoop, hl, hidx, and_self, if_true, hb, h0, h1, if_false, ne_eq,
    not_false_eq_true]

theorem assetLoop_short_length (decodeRPack : Bytes → Option Bytes) (buf : Bytes)
    (assets : List AssetDescriptor) (fuel : Nat) (s : LoopState) (rest : Bytes)
    (hpos : buf.drop s.pos = 1 :: rest) (hrest : rest.length < 4)
    (hidx : s.assetIndex < assets.length) :
    assetLoop decodeRPack buf assets (fuel + 1) s =
      some ({ s with pos := s.pos + 1 }, some .rangeError) := by
  have hl := lt_length_of_drop _ _ _ _ hpos
  have hb := readByte_of_drop _ _ _ _ hpos
  have hd1 := drop_succ_of_drop _ _ _ _ hpos
  have hr : readLength buf (s.pos + 1) = .error .rangeError := by
    unfold readLength
    rw [hd1]
    rcases rest with _ | ⟨b0, _ | ⟨b1, _ | ⟨b2, _ | ⟨b3, rest⟩⟩⟩⟩ <;>
      first | rfl | (simp only [List.length_cons] at hrest; omega)
  simp only [assetLoop, hl, hidx, and_self, if_true, hb, hr]
  simp

theorem loopCase_exhaustive (decodeRPack : Bytes → Option Bytes) (buf : Bytes)
    (assets : List AssetDescriptor) (s : LoopState) : LoopCase decodeRPack buf assets s := by
  by_cases hidx : s.assetIndex < assets.length
  · rcases hd : buf.drop s.pos with _ | ⟨m, rest⟩
    · exact .stop (Or.inl hd)
    · by_cases h0 : m = 0
      · subst h0; exact .zero rest hd hidx
      · by_cases h1 : m = 1
        · subst h1
          rcases rest with _ | ⟨c0, _ | ⟨c1, _ | ⟨c2, _ | ⟨c3, rest⟩⟩⟩⟩
          · exact .short _ hd (by simp) hidx
          · exact .short _ hd (by simp) hidx
          · exact .short _ hd (by simp) hidx
          · exact .short _ hd (by simp) hidx
          · cases hdec : decodeRPack
                (rest.take (c0.val + 256 * c1.val + 65536 * c2.val + 16777216 * c3.val)) with
            | none => exact .rejected c0 c1 c2 c3 rest hd hidx hdec
            | some out =>
              cases hg : assets.get? s.assetIndex with
              | none =>
                rw [List.get?_eq_none] at hg
                omega
              | some d => exact .frame c0 c1 c2 c3 rest out d hd hg hdec
        · exact .skip m rest hd h0 h1 hidx
  · exact .stop (Or.inr hidx)

theorem assetLoop_stop_of_case (decodeRPack : Bytes → Option Bytes) (buf : Bytes)
    (assets : List AssetDescriptor) (fuel : Nat) (s : LoopState)
    (h : buf.drop s.pos = [] ∨ ¬ s.assetIndex < assets.length) :
    assetLoop decodeRPack buf assets (fuel + 1) s = some (s, none) := by
  apply assetLoop_stop
  rintro ⟨h1, h2⟩
  rcases h with h | h
  · exact (lt_length_iff_drop_ne_nil buf s.pos).mp h1 h
  · exact h h2

/-! ## Termination of the asset loop -/

theorem assetLoop_terminates (decodeRPack : Bytes → Option Bytes) (buf : Bytes)
    (assets : List AssetDescriptor) :
    ∀ (fuel : Nat) (s : LoopState), buf.length - s.pos < fuel →
      ∃ r, assetLoop decodeRPack buf assets fuel s = some r ∧ s.pos ≤ r.1.pos
  | 0, _, h => by omega
  | fuel + 1, s, h => by
    cases loopCase_exhaustive decodeRPack buf assets s with
    | stop hc => exact ⟨_, assetLoop_stop_of_case _ _ _ _ _ hc, Nat.le_refl _⟩
    | zero rest hpos hidx =>
      exact ⟨_, assetLoop_marker_zero _ _ _ _ _ rest hpos hidx, Nat.le_succ _⟩
    | skip m rest hpos h0 h1 hidx =>
      have hl := lt_length_of_drop _ _ _ _ hpos
      rw [assetLoop_skip _ _ _ _ _ m rest hpos h0 h1 hidx]
      obtain ⟨r, hr, hle⟩ := assetLoop_terminates decodeRPack buf assets fuel
        { s with pos := s.pos + 1 } (by simp only; omega)
      exact ⟨r, hr, by simp only at hle; omega⟩
    | short rest hpos hrest hidx =>
      exact ⟨_, assetLoop_short_length _ _ _ _ _ rest hpos hrest hidx, Nat.le_succ _⟩
    | rejected c0 c1 c2 c3 rest hpos hidx hdec =>
      exact ⟨_, assetLoop_frame_rejected _ _ _ _ _ c0 c1 c2 c3 rest hpos hidx hdec,
        by simp only; omega⟩
    | frame c0 c1 c2 c3 rest out d hpos hidx hdec =>
      have hl := lt_length_of_drop _ _ _ _ hpos
      rw [assetLoop_frame _ _ _ _ _ c0 c1 c2 c3 rest out d hpos hidx hdec]
      obtain ⟨r, hr, hle⟩ := assetLoop_terminates decodeRPack buf assets fuel
        { pos := s.pos + 5 + (c0.val + 256 * c1.val + 65536 * c2.val + 16777216 * c3.val),
          assetIndex := s.assetIndex + 1,
          results := s.results ++ [⟨resolveFilename d.id d.declaredType out, out⟩],
          decodeCalls := s.decodeCalls ++
            [rest.take (c0.val + 256 * c1.val + 65536 * c2.val + 16777216 * c3.val)] }
        (by simp only; omega)
      exact ⟨r, hr, by simp only at hle; omega⟩

theorem assetLoop_fuel_mono (decodeRPack : Bytes → Option Bytes) (buf : Bytes)
    (assets : List AssetDescriptor) :
    ∀ (fuel k : Nat) (s : LoopState) (r : LoopState × Option DecodeError),
      assetLoop decodeRPack buf assets fuel s = some r →
      assetLoop decodeRPack buf assets (fuel + k) s = some r
  | 0, _, _, _, h => by simp [assetLoop] at h
  | fuel + 1, k, s, r, h => by
    have hk : fuel + 1 + k = (fuel + k) + 1 := by omega
    rw [hk]
    cases loopCase_exhaustive decodeRPack buf assets s with
    | stop hc =>
      rw [assetLoop_stop_of_case _ _ _ _ _ hc] at h ⊢
      exact h
    | zero rest hpos hidx =>
      rw [assetLoop_marker_zero _ _ _ _ _ rest hpos hidx] at h ⊢
      exact h
    | skip m rest hpos h0 h1 hidx =>
      rw [assetLoop_skip _ _ _ _ _ m rest hpos h0 h1 hidx] at h ⊢
      exact assetLoop_fuel_mono decodeRPack buf assets fuel k _ r h
    | short rest hpos hrest hidx =>
      rw [assetLoop_short_length _ _ _ _ _ rest hpos hrest hidx] at h ⊢
      exact h
    | rejected c0 c1 c2 c3 rest hpos hidx hdec =>
      rw [assetLoop_frame_rejected _ _ _ _ _ c0 c1 c2 c3 rest hpos hidx hdec] at h ⊢
      exact h
    | frame c0 c1 c2 c3 rest out d hpos hidx hdec =>
      rw [assetLoop_frame _ _ _ _ _ c0 c1 c2 c3 rest out d hpos hidx hdec] at h ⊢
      exact assetLoop_fuel_mono decodeRPack buf assets fuel k _ r h

/-! ## The two ways `handleFileSelect` can end -/

/-- The final state built from the result of the asset loop (lines 128-153). -/
theorem handleFileSelect_outcomes (decodeRPack : Bytes → Option Bytes)
    (parseJson : Bytes → Option MainJson) (buf : Bytes) :
    (∃ f : Final, handleFileSelect decodeRPack parseJson buf = some f ∧ f.results = [] ∧
      f.decodeCalls.length ≤ 1 ∧
      ((∃ e, f.status = .error e) ∨
        (f.status = .noAssets ∧ f.decodeCalls.length = 1 ∧
          (∃ mainJson moduleInfo, f.structureView = some mainJson ∧
            mainJson.module = some moduleInfo ∧
            (moduleInfo.assets = none ∨ moduleInfo.assets = some [])) ∧
          ∃ (b0 b1 b2 b3 : Byte) (tail : Bytes),
            buf = 111 :: 0 :: b0 :: b1 :: b2 :: b3 :: tail ∧
            f.decodeCalls =
              [tail.take (b0.val + 256 * b1.val + 65536 * b2.val + 16777216 * b3.val)]))) ∨
    (∃ (mainJson : MainJson) (moduleInfo : ModuleInfo) (assets : List AssetDescriptor)
        (b0 b1 b2 b3 : Byte) (tail : Bytes),
      mainJson.module = some moduleInfo ∧ moduleInfo.assets = some assets ∧ assets ≠ [] ∧
      buf = 111 :: 0 :: b0 :: b1 :: b2 :: b3 :: tail ∧
      buf.length - (6 + (b0.val + 256 * b1.val + 65536 * b2.val + 16777216 * b3.val)) <
        buf.length ∧
      handleFileSelect decodeRPack parseJson buf =
        (assetLoop decodeRPack buf assets buf.length
          { pos := 6 + (b0.val + 256 * b1.val + 65536 * b2.val + 16777216 * b3.val),
            assetIndex := 0, results := [],
            decodeCalls :=
              [tail.take (b0.val + 256 * b1.val + 65536 * b2.val + 16777216 * b3.val)] }).map
          fun r =>
            { pos := r.1.pos, structureView := some mainJson, results := r.1.results,
              decodeCalls := r.1.decodeCalls,
              status :=
                match r.2 with
                | some e => .error e
                | none => .extracted moduleInfo.name assets.length }) := by
  rcases buf with _ | ⟨magic, buf⟩
  · exact Or.inl ⟨⟨0, none, [], [], .error .rangeError⟩, rfl, rfl, by simp, Or.inl ⟨_, rfl⟩⟩
  by_cases hm : magic = 111
  swap
  · exact Or.inl ⟨⟨1, none, [], [], .error .invalidMagic⟩,
      by simp [handleFileSelect, readByte, hm], rfl, by simp, Or.inl ⟨_, rfl⟩⟩
  subst hm
  rcases buf with _ | ⟨version, buf⟩
  · exact Or.inl ⟨⟨1, none, [], [], .error .rangeError⟩,
      by simp [handleFileSelect, readByte], rfl, by simp, Or.inl ⟨_, rfl⟩⟩
  by_cases hv : version = 0
  swap
  · exact Or.inl ⟨⟨2, none, [], [], .error .unsupportedVersion⟩,
      by simp [handleFileSelect, readByte, hv], rfl, by simp, Or.inl ⟨_, rfl⟩⟩
  subst hv
  rcases buf with _ | ⟨b0, _ | ⟨b1, _ | ⟨b2, _ | ⟨b3, tail⟩⟩⟩⟩
  · exact Or.inl ⟨⟨2, none, [], [], .error .rangeError⟩,
      by simp [handleFileSelect, readByte, readLength], rfl, by simp, Or.inl ⟨_, rfl⟩⟩
  · exact Or.inl ⟨⟨2, none, [], [], .error .rangeError⟩,
      by simp [handleFileSelect, readByte, readLength], rfl, by simp, Or.inl ⟨_, rfl⟩⟩
  · exact Or.inl ⟨⟨2, none, [], [], .error .rangeError⟩,
      by simp [handleFileSelect, readByte, readLength], rfl, by simp, Or.inl ⟨_, rfl⟩⟩
  · exact Or.inl ⟨⟨2, none, [], [], .error .rangeError⟩,
      by simp [handleFileSelect, readByte, readLength], rfl, by simp, Or.inl ⟨_, rfl⟩⟩
  cases hdec : decodeRPack
      (tail.take (b0.val + 256 * b1.val + 65536 * b2.val + 16777216 * b3.val)) with
  | none =>
    exact Or.inl ⟨⟨6 + (b0.val + 256 * b1.val + 65536 * b2.val + 16777216 * b3.val), none, [],
        [tail.take (b0.val + 256 * b1.val + 65536 * b2.val + 16777216 * b3.val)],
        .error .decompression⟩,
      by simp [handleFileSelect, readByte, readLength, readData, hdec], rfl,
      by simp, Or.inl ⟨_, rfl⟩⟩
  | some decoded =>
    cases hparse : parseJson decoded with
    | none =>
      exact Or.inl ⟨⟨6 + (b0.val + 256 * b1.val + 65536 * b2.val + 16777216 * b3.val), none, [],
          [tail.take (b0.val + 256 * b1.val + 65536 * b2.val + 16777216 * b3.val)],
          .error .malformedJson⟩,
        by simp [handleFileSelect, readByte, readLength, readData, hdec, hparse],
        rfl, by simp, Or.inl ⟨_, rfl⟩⟩
    | some mainJson =>
      cases hmod : mainJson.module with
      | none =>
        exact Or.inl ⟨⟨6 + (b0.val + 256 * b1.val + 65536 * b2.val + 16777216 * b3.val),
            some mainJson, [],
            [tail.take (b0.val + 256 * b1.val + 65536 * b2.val + 16777216 * b3.val)],
            .error .typeError⟩,
          by simp [handleFileSelect, readByte, readLength, readData, hdec, hparse, hmod],
          rfl, by simp, Or.inl ⟨_, rfl⟩⟩
      | some moduleInfo =>
        cases hassets : moduleInfo.assets with
        | none =>
          exact Or.inl ⟨⟨6 + (b0.val + 256 * b1.val + 65536 * b2.val + 16777216 * b3.val),
              some mainJson, [],
              [tail.take (b0.val + 256 * b1.val + 65536 * b2.val + 16777216 * b3.val)],
              .noAssets⟩,
            by
              simp [handleFileSelect, readByte, readLength, readData, hdec, hparse, hmod,
                hassets],
            rfl, by simp,
            Or.inr ⟨rfl, by simp, ⟨mainJson, moduleInfo, rfl, hmod, Or.inl hassets⟩,
              b0, b1, b2, b3, tail, rfl, rfl⟩⟩
        | some assets =>
          rcases assets with _ | ⟨d, ds⟩
          · exact Or.inl ⟨⟨6 + (b0.val + 256 * b1.val + 65536 * b2.val + 16777216 * b3.val),
                some mainJson, [],
                [tail.take (b0.val + 256 * b1.val + 65536 * b2.val + 16777216 * b3.val)],
                .noAssets⟩,
              by
                simp [handleFileSelect, readByte, readLength, readData, hdec, hparse, hmod,
                  hassets],
              rfl, by simp,
              Or.inr ⟨rfl, by simp, ⟨mainJson, moduleInfo, rfl, hmod, Or.inr hassets⟩,
                b0, b1, b2, b3, tail, rfl, rfl⟩⟩
          · refine Or.inr ⟨mainJson, moduleInfo, d :: ds, b0, b1, b2, b3, tail,
              hmod, hassets, by simp, rfl, ?_, ?_⟩
            · simp only [List.length_cons]
              omega
            · have := handleFileSelect_with_assets decodeRPack parseJson b0 b1 b2 b3 tail decoded
                mainJson moduleInfo (d :: ds) hdec hparse hmod hassets (by simp)
              have hlen : (111 :: 0 :: b0 :: b1 :: b2 :: b3 :: tail : Bytes).length =
                  tail.length + 6 := by simp
              rw [hlen]
              exact this

/-! ## What the asset loop keeps true -/

theorem filterMap_of_map_eq_some {α β : Type} (f : α → Option β) :
    ∀ (l : List α) (outs : List β), l.map f = outs.map some → l.filterMap f = outs
  | [], [], _ => rfl
  | [], _ :: _, h => by simp at h
  | _ :: _, [], h => by simp at h
  | x :: l, o :: outs, h => by
    simp only [List.map_cons, List.cons.injEq] at h
    rw [List.filterMap_cons, h.1]
    simp only
    rw [filterMap_of_map_eq_some f l outs h.2]

theorem stopInv_of_loopInv (decodeRPack : Bytes → Option Bytes) (assets : List AssetDescriptor)
    (s : LoopState) (h : LoopInv decodeRPack assets s) : StopInv decodeRPack assets s := by
  obtain ⟨_, h2, _, h4, h5⟩ := h
  refine ⟨h2, ?_, h5⟩
  apply filterMap_of_map_eq_some
  rw [h4, List.map_map]
  rfl

theorem loopInv_frame (decodeRPack : Bytes → Option Bytes) (assets : List AssetDescriptor)
    (s : LoopState) (pos : Nat) (packed out : Bytes) (d : AssetDescriptor)
    (h : LoopInv decodeRPack assets s) (hidx : assets.get? s.assetIndex = some d)
    (hdec : decodeRPack packed = some out) :
    LoopInv decodeRPack assets
      { pos := pos, assetIndex := s.assetIndex + 1,
        results := s.results ++ [⟨resolveFilename d.id d.declaredType out, out⟩],
        decodeCalls := s.decodeCalls ++ [packed] } := by
  obtain ⟨h1, h2, h3, h4, h5⟩ := h
  have hlt : s.assetIndex < assets.length := by
    by_contra hn
    rw [List.get?_eq_none.mpr (by omega)] at hidx
    cases hidx
  refine ⟨by simp [h1], by simp only [List.length_append, List.length_singleton]; omega,
    by simp, ?_, ?_⟩
  · simp only
    rw [List.tail_append_of_ne_nil h3]
    simp [h4, hdec]
  · intro k a hk
    simp only at hk
    by_cases hkl : k < s.results.length
    · rw [List.get?_eq_getElem?, List.getElem?_append_left hkl, ← List.get?_eq_getElem?] at hk
      exact h5 k a hk
    · have hge : s.results.length ≤ k := by omega
      rw [List.get?_eq_getElem?, List.getElem?_append_right hge] at hk
      have hk0 : k - s.results.length = 0 := by
        by_contra hne
        have : 1 ≤ k - s.results.length := by omega
        rw [List.getElem?_eq_none (by simpa using this)] at hk
        cases hk
      rw [hk0] at hk
      simp only [List.getElem?_cons_zero, Option.some.injEq] at hk
      subst hk
      have hkeq : k = s.assetIndex := by omega
      subst hkeq
      exact ⟨d, hidx, rfl⟩

theorem assetLoop_inv (decodeRPack : Bytes → Option Bytes) (buf : Bytes)
    (assets : List AssetDescriptor) :
    ∀ (fuel : Nat) (s r : LoopState) (e : Option DecodeError), LoopInv decodeRPack assets s →
      assetLoop decodeRPack buf assets fuel s = some (r, e) →
      StopInv decodeRPack assets r ∧ (e = none → LoopInv decodeRPack assets r) ∧
        (e ≠ none → r.results.length < assets.length)
  | 0, _, _, _, _, h => by simp [assetLoop] at h
  | fuel + 1, s, r, e, hinv, h => by
    have hpos : ∀ p, LoopInv decodeRPack assets { s with pos := p } := fun _ => hinv
    cases loopCase_exhaustive decodeRPack buf assets s with
    | stop hc =>
      rw [assetLoop_stop_of_case _ _ _ _ _ hc] at h
      cases h
      exact ⟨stopInv_of_loopInv _ _ _ hinv, fun _ => hinv, fun hn => absurd rfl hn⟩
    | zero rest hp hidx =>
      rw [assetLoop_marker_zero _ _ _ _ _ rest hp hidx] at h
      cases h
      exact ⟨stopInv_of_loopInv _ _ _ (hpos _), fun _ => hpos _, fun hn => absurd rfl hn⟩
    | skip m rest hp h0 h1 hidx =>
      rw [assetLoop_skip _ _ _ _ _ m rest hp h0 h1 hidx] at h
      exact assetLoop_inv decodeRPack buf assets fuel _ r e (hpos _) h
    | short rest hp hrest hidx =>
      rw [assetLoop_short_length _ _ _ _ _ rest hp hrest hidx] at h
      cases h
      refine ⟨stopInv_of_loopInv _ _ _ (hpos _), (fun hn => by cases hn), fun _ => ?_⟩
      have := hinv.1
      simp only
      omega
    | rejected c0 c1 c2 c3 rest hp hidx hdec =>
      rw [assetLoop_frame_rejected _ _ _ _ _ c0 c1 c2 c3 rest hp hidx hdec] at h
      cases h
      obtain ⟨h1, h2, h3, h4, h5⟩ := hinv
      refine ⟨⟨h2, ?_, h5⟩, (fun hn => by cases hn), fun _ => (by simp only; omega)⟩
      simp only
      rw [List.tail_append_of_ne_nil h3, List.filterMap_append]
      have := (stopInv_of_loopInv _ _ _ ⟨h1, h2, h3, h4, h5⟩).2.1
      simp [this, hdec]
    | frame c0 c1 c2 c3 rest out d hp hidx hdec =>
      rw [assetLoop_frame _ _ _ _ _ c0 c1 c2 c3 rest out d hp hidx hdec] at h
      exact assetLoop_inv decodeRPack buf assets fuel _ r e
        (loopInv_frame _ _ s _ _ out d hinv hidx hdec) h

theorem resolveFilename_shape (assetId : String) (assetType : JSValue) (content : Bytes) :
    resolveFilename assetId assetType content = assetId ∨
      ∃ e : String, e.data ≠ [] ∧
        resolveFilename assetId assetType content = assetId ++ "." ++ e := by
  unfold resolveFilename
  split_ifs with hk
  · exact Or.inl rfl
  · simp only
    split
    · rename_i e he
      split_ifs with ht
      · exact Or.inr ⟨e, by simpa [extensionTruthy] using ht, rfl⟩
      · exact Or.inl rfl
    · exact Or.inl rfl

theorem loopInv_initial (decodeRPack : Bytes → Option Bytes) (assets : List AssetDescriptor)
    (p4 : Nat) (mainDataPacked : Bytes) :
    LoopInv decodeRPack assets
      { pos := p4, assetIndex := 0, results := [], decodeCalls := [mainDataPacked] } :=
  ⟨rfl, Nat.zero_le _, by simp, rfl, fun k a h => by simp at h⟩

/-- Where `handleFileSelect` reaches the asset loop, its final state is the state in which the
loop stopped. -/
theorem handleFileSelect_loop_result (decodeRPack : Bytes → Option Bytes) (buf : Bytes)
    (assets : List AssetDescriptor) (s0 : LoopState) (mainJson : MainJson) (name : String)
    (f : Final)
    (h : (assetLoop decodeRPack buf assets buf.length s0).map
        (fun r =>
          ({ pos := r.1.pos, structureView := some mainJson, results := r.1.results,
             decodeCalls := r.1.decodeCalls,
             status :=
               match r.2 with
               | some e => .error e
               | none => .extracted name assets.length } : Final)) = some f) :
    ∃ (r : LoopState) (e : Option DecodeError),
      assetLoop decodeRPack buf assets buf.length s0 = some (r, e) ∧
      f.results = r.results ∧ f.decodeCalls = r.decodeCalls ∧ f.pos = r.pos ∧
      f.structureView = some mainJson ∧
      f.status = (match e with
        | some e => .error e
        | none => .extracted name assets.length) := by
  cases hl : assetLoop decodeRPack buf assets buf.length s0 with
  | none => rw [hl] at h; cases h
  | some re =>
    obtain ⟨r, e⟩ := re
    rw [hl] at h
    simp only [Option.map_some', Option.some.injEq] at h
    subst h
    exact ⟨r, e, rfl, rfl, rfl, rfl, rfl, rfl⟩

/-- C12 (as stated, refuted): the second frame of this container ends inside its length field,
so the decode fails with the out-of-bounds error, and the link of the first asset, appended
before the failure, is still in the results collection. -/
theorem partial_results_after_failure :
    handleFileSelect identityRPack (constantParse twoAssetsJson)
        [111, 0, 2, 0, 0, 0, 123, 125, 1, 2, 0, 0, 0, 7, 7, 1, 9] =
      some { pos := 16, structureView := some twoAssetsJson,
             results := [⟨"img1", [7, 7]⟩], decodeCalls := [[123, 125], [7, 7]],
             status := .error .rangeError } ∧
    ([⟨"img1", [7, 7]⟩] : List ResolvedAsset) ≠ [] := by
  decide

/-- The payloads that a run of the asset loop hands to `decodeRPack` are the payloads of the
marker-1 frames that lie in the buffer from the cursor on, in buffer order. -/
theorem assetLoop_reads_frames (decodeRPack : Bytes → Option Bytes) (buf : Bytes)
    (assets : List AssetDescriptor) :
    ∀ (fuel : Nat) (s r : LoopState) (e : Option DecodeError),
      assetLoop decodeRPack buf assets fuel s = some (r, e) →
      ∃ payloads, FramePayloads (buf.drop s.pos) payloads ∧
        r.decodeCalls = s.decodeCalls ++ payloads
  | 0, _, _, _, h => by simp [assetLoop] at h
  | fuel + 1, s, r, e, h => by
    cases loopCase_exhaustive decodeRPack buf assets s with
    | stop hc =>
      rw [assetLoop_stop_of_case _ _ _ _ _ hc] at h
      cases h
      exact ⟨[], .done _, by simp⟩
    | zero rest hp hidx =>
      rw [assetLoop_marker_zero _ _ _ _ _ rest hp hidx] at h
      cases h
      exact ⟨[], .done _, by simp⟩
    | skip m rest hp h0 h1 hidx =>
      rw [assetLoop_skip _ _ _ _ _ m rest hp h0 h1 hidx] at h
      obtain ⟨ps, hps, hcalls⟩ := assetLoop_reads_frames decodeRPack buf assets fuel _ r e h
      simp only at hps hcalls
      rw [drop_succ_of_drop _ _ _ _ hp] at hps
      rw [hp]
      exact ⟨ps, .skip m rest ps h0 h1 hps, hcalls⟩
    | short rest hp hrest hidx =>
      rw [assetLoop_short_length _ _ _ _ _ rest hp hrest hidx] at h
      cases h
      exact ⟨[], .done _, by simp⟩
    | rejected c0 c1 c2 c3 rest hp hidx hdec =>
      rw [assetLoop_frame_rejected _ _ _ _ _ c0 c1 c2 c3 rest hp hidx hdec] at h
      cases h
      rw [hp]
      exact ⟨_, .frame c0 c1 c2 c3 rest [] (.done _), rfl⟩
    | frame c0 c1 c2 c3 rest out d hp hidx hdec =>
      rw [assetLoop_frame _ _ _ _ _ c0 c1 c2 c3 rest out d hp hidx hdec] at h
      obtain ⟨ps, hps, hcalls⟩ := assetLoop_reads_frames decodeRPack buf assets fuel _ r e h
      simp only at hps hcalls
      rw [Nat.add_assoc, drop_add_of_drop buf s.pos _ _ hp] at hps
      have hd5 : List.drop (5 + (c0.val + 256 * c1.val + 65536 * c2.val + 16777216 * c3.val))
          (1 :: c0 :: c1 :: c2 :: c3 :: rest) =
          rest.drop (c0.val + 256 * c1.val + 65536 * c2.val + 16777216 * c3.val) := by
        rw [Nat.add_comm 5]
        rfl
      rw [hd5] at hps
      rw [hp]
      exact ⟨_, .frame c0 c1 c2 c3 rest ps hps, by rw [hcalls, List.append_assoc]; rfl⟩

theorem links_of_loopInv (decodeRPack : Bytes → Option Bytes) (assets : List AssetDescriptor)
    (s : LoopState) (h : LoopInv decodeRPack assets s) :
    ∀ (k : Nat) (a : ResolvedAsset), s.results.get? k = some a →
      ∃ packed, s.decodeCalls.get? (k + 1) = some packed ∧
        decodeRPack packed = some a.content := by
  obtain ⟨_, _, h3, h4, _⟩ := h
  intro k a hk
  have hcall : (s.decodeCalls.tail.map decodeRPack).get? k = some (some a.content) := by
    rw [h4, List.get?_eq_getElem?, List.getElem?_map, ← List.get?_eq_getElem?, hk]
    rfl
  rw [List.get?_eq_getElem?, List.getElem?_map] at hcall
  cases hp : s.decodeCalls.tail[k]? with
  | none => rw [hp] at hcall; cases hcall
  | some pk =>
    rw [hp] at hcall
    simp only [Option.map_some', Option.some.injEq] at hcall
    refine ⟨pk, ?_, hcall⟩
    rw [List.get?_eq_getElem?]
    rcases hcs : s.decodeCalls with _ | ⟨c, cs⟩
    · exact absurd hcs h3
    · rw [hcs] at hp
      simpa using hp

/-- Wherever the asset loop stops, also on an exception, the link of rank `k` has the output
of `decodeRPack` on the payload of the call of rank `k + 1`. -/
theorem assetLoop_links (decodeRPack : Bytes → Option Bytes) (buf : Bytes)
    (assets : List AssetDescriptor) :
    ∀ (fuel : Nat) (s r : LoopState) (e : Option DecodeError), LoopInv decodeRPack assets s →
      assetLoop decodeRPack buf assets fuel s = some (r, e) →
      ∀ (k : Nat) (a : ResolvedAsset), r.results.get? k = some a →
        ∃ packed, r.decodeCalls.get? (k + 1) = some packed ∧
          decodeRPack packed = some a.content
  | 0, _, _, _, _, h => by simp [assetLoop] at h
  | fuel + 1, s, r, e, hinv, h => by
    have hpos : ∀ p, LoopInv decodeRPack assets { s with pos := p } := fun _ => hinv
    cases loopCase_exhaustive decodeRPack buf assets s with
    | stop hc =>
      rw [assetLoop_stop_of_case _ _ _ _ _ hc] at h
      cases h
      exact links_of_loopInv _ _ _ hinv
    | zero rest hp hidx =>
      rw [assetLoop_marker_zero _ _ _ _ _ rest hp hidx] at h
      cases h
      exact links_of_loopInv _ _ _ (hpos _)
    | skip m rest hp h0 h1 hidx =>
      rw [assetLoop_skip _ _ _ _ _ m rest hp h0 h1 hidx] at h
      exact assetLoop_links decodeRPack buf assets fuel _ r e (hpos _) h
    | short rest hp hrest hidx =>
      rw [assetLoop_short_length _ _ _ _ _ rest hp hrest hidx] at h
      cases h
      exact links_of_loopInv _ _ _ (hpos _)
    | rejected c0 c1 c2 c3 rest hp hidx hdec =>
      rw [assetLoop_frame_rejected _ _ _ _ _ c0 c1 c2 c3 rest hp hidx hdec] at h
      cases h
      intro k a hk
      obtain ⟨packed, hpk, hdk⟩ := links_of_loopInv _ _ _ hinv k a hk
      refine ⟨packed, ?_, hdk⟩
      simp only
      rw [List.get?_eq_getElem?] at hpk ⊢
      have hlt : k + 1 < s.decodeCalls.length := by
        by_contra hn
        rw [List.getElem?_eq_none (by omega)] at hpk
        cases hpk
      rw [List.getElem?_append_left hlt]
      exact hpk
    | frame c0 c1 c2 c3 rest out d hp hidx hdec =>
      rw [assetLoop_frame _ _ _ _ _ c0 c1 c2 c3 rest out d hp hidx hdec] at h
      exact assetLoop_links decodeRPack buf assets fuel _ r e
        (loopInv_frame _ _ s _ _ out d hinv hidx hdec) h

/-- C12 (amended): when the decode fails, the results collection is not emptied: it holds the
links of the assets resolved before the failure, in frame order. The link of rank `k` has the
output of `decodeRPack` on the payload of call `k + 1`, and the payloads handed to
`decodeRPack` after the metadata block are those of the marker-1 frames of the buffer, in
buffer order; the links are fewer than the descriptors of the metadata shown; and there is
none when no asset payload was handed to `decodeRPack` (a failure in the header or the
metadata block). -/
theorem handleFileSelect_failure_results (decodeRPack : Bytes → Option Bytes)
    (parseJson : Bytes → Option MainJson) (buf : Bytes) (f : Final) (e : DecodeError)
    (h : handleFileSelect decodeRPack parseJson buf = some f) (he : f.status = .error e) :
    (∀ (k : Nat) (a : ResolvedAsset), f.results.get? k = some a →
      ∃ packed, f.decodeCalls.get? (k + 1) = some packed ∧
        decodeRPack packed = some a.content) ∧
    (2 ≤ f.decodeCalls.length →
      ∃ (b0 b1 b2 b3 : Byte) (tail : Bytes),
        buf = 111 :: 0 :: b0 :: b1 :: b2 :: b3 :: tail ∧
        FramePayloads
          (tail.drop (b0.val + 256 * b1.val + 65536 * b2.val + 16777216 * b3.val))
          f.decodeCalls.tail) ∧
    (f.decodeCalls.length ≤ 1 → f.results = []) ∧
    (∀ mainJson moduleInfo assets, f.structureView = some mainJson →
      mainJson.module = some moduleInfo → moduleInfo.assets = some assets → assets ≠ [] →
      f.results.length < assets.length) := by
  rcases handleFileSelect_outcomes decodeRPack parseJson buf with
    ⟨f2, hf2, hres, hcalls, _⟩ |
    ⟨mainJson, moduleInfo, assets, b0, b1, b2, b3, tail, hm, ha, _, hbuf, _, hf2⟩
  · rw [hf2] at h
    have hff := Option.some.inj h
    rw [← hff]
    refine ⟨?_, ?_, fun _ => hres, ?_⟩
    · intro k a hk
      rw [hres] at hk
      simp at hk
    · intro h2
      omega
    · intro _ _ assets _ _ _ hne
      rw [hres]
      exact List.length_pos.mpr hne
  · rw [hf2] at h
    obtain ⟨r, e2, hl, hr, hc, _, hv, hst⟩ :=
      handleFileSelect_loop_result decodeRPack buf assets _ mainJson moduleInfo.name f h
    have hinit := loopInv_initial decodeRPack assets
      (6 + (b0.val + 256 * b1.val + 65536 * b2.val + 16777216 * b3.val))
      (tail.take (b0.val + 256 * b1.val + 65536 * b2.val + 16777216 * b3.val))
    have hinv := assetLoop_inv decodeRPack buf assets buf.length _ r e2 hinit hl
    have hlinks := assetLoop_links decodeRPack buf assets buf.length _ r e2 hinit hl
    obtain ⟨ps, hps, hcs⟩ := assetLoop_reads_frames decodeRPack buf assets buf.length _ r e2 hl
    simp only at hps hcs
    have hsec : buf.drop (6 + (b0.val + 256 * b1.val + 65536 * b2.val + 16777216 * b3.val)) =
        tail.drop (b0.val + 256 * b1.val + 65536 * b2.val + 16777216 * b3.val) := by
      rw [hbuf, Nat.add_comm 6]
      rfl
    rw [hsec] at hps
    have hlinks2 : ∀ (k : Nat) (a : ResolvedAsset), f.results.get? k = some a →
        ∃ packed, f.decodeCalls.get? (k + 1) = some packed ∧
          decodeRPack packed = some a.content := by
      rw [hr, hc]
      exact hlinks
    refine ⟨hlinks2, ?_, ?_, ?_⟩
    · intro _
      refine ⟨b0, b1, b2, b3, tail, hbuf, ?_⟩
      rw [hc, hcs]
      exact hps
    · intro hlen
      rcases hres : f.results with _ | ⟨a, _⟩
      · rfl
      · obtain ⟨packed, hpk, _⟩ := hlinks2 0 a (by rw [hres]; rfl)
        rw [List.get?_eq_getElem?, List.getElem?_eq_none (by omega)] at hpk
        cases hpk
    · intro mainJson2 moduleInfo2 assets2 hv2 hm2 ha2 _
      rw [hv] at hv2
      cases hv2
      rw [hm] at hm2
      cases hm2
      rw [ha] at ha2
      cases ha2
      rw [hr]
      apply hinv.2.2
      intro hn
      subst hn
      rw [he] at hst
      cases hst

/-- Witness of C12 (amended): a container whose second frame ends inside its length field. -/
theorem handleFileSelect_failure_results_witness :
    (∀ (k : Nat) (a : ResolvedAsset),
      ([⟨"img1", [7, 7]⟩] : List ResolvedAsset).get? k = some a →
      ∃ packed, ([[123, 125], [7, 7]] : List Bytes).get? (k + 1) = some packed ∧
        identityRPack packed = some a.content) ∧
    (2 ≤ ([[123, 125], [7, 7]] : List Bytes).length →
      ∃ (b0 b1 b2 b3 : Byte) (tail : Bytes),
        ([111, 0, 2, 0, 0, 0, 123, 125, 1, 2, 0, 0, 0, 7, 7, 1, 9] : Bytes) =
          111 :: 0 :: b0 :: b1 :: b2 :: b3 :: tail ∧
        FramePayloads
          (tail.drop (b0.val + 256 * b1.val + 65536 * b2.val + 16777216 * b3.val))
          ([[123, 125], [7, 7]] : List Bytes).tail) ∧
    (([[123, 125], [7, 7]] : List Bytes).length ≤ 1 →
      ([⟨"img1", [7, 7]⟩] : List ResolvedAsset) = []) ∧
    (∀ mainJson moduleInfo assets, some twoAssetsJson = some mainJson →
      mainJson.module = some moduleInfo → moduleInfo.assets = some assets → assets ≠ [] →
      ([⟨"img1", [7, 7]⟩] : List ResolvedAsset).length < assets.length) :=
  handleFileSelect_failure_results identityRPack (constantParse twoAssetsJson)
    [111, 0, 2, 0, 0, 0, 123, 125, 1, 2, 0, 0, 0, 7, 7, 1, 9]
    { pos := 16, structureView := some twoAssetsJson,
      results := [⟨"img1", [7, 7]⟩], decodeCalls := [[123, 125], [7, 7]],
      status := .error .rangeError } .rangeError (by decide) rfl

/-- C16: after a successful decode the resolved assets are at most as many as the descriptors
of the metadata, and the asset of rank `k` is paired with descriptor `k`: its content is the
output of `decodeRPack` on the payload of the `k`-th marker-1 frame of the buffer, in buffer
order, counted from the end of the metadata block, and its name is the id of that
descriptor, alone or followed by "." and a non-empty extension. -/
theorem handleFileSelect_pairs_assets (decodeRPack : Bytes → Option Bytes)
    (parseJson : Bytes → Option MainJson) (buf : Bytes) (f : Final)
    (h : handleFileSelect decodeRPack parseJson buf = some f)
    (hok : ∀ e, f.status ≠ .error e) :
    ∃ (mainJson : MainJson) (moduleInfo : ModuleInfo) (b0 b1 b2 b3 : Byte) (tail : Bytes)
        (payloads : List Bytes),
      buf = 111 :: 0 :: b0 :: b1 :: b2 :: b3 :: tail ∧
      f.structureView = some mainJson ∧ mainJson.module = some moduleInfo ∧
      f.results.length ≤ (moduleInfo.assets.getD []).length ∧
      FramePayloads
        (tail.drop (b0.val + 256 * b1.val + 65536 * b2.val + 16777216 * b3.val)) payloads ∧
      payloads.length = f.results.length ∧
      f.decodeCalls =
        tail.take (b0.val + 256 * b1.val + 65536 * b2.val + 16777216 * b3.val) :: payloads ∧
      ∀ (k : Nat) (a : ResolvedAsset), f.results.get? k = some a →
        ∃ d packed, (moduleInfo.assets.getD []).get? k = some d ∧
          payloads.get? k = some packed ∧ decodeRPack packed = some a.content ∧
          (a.filename = d.id ∨
            ∃ ext : String, ext.data ≠ [] ∧ a.filename = d.id ++ "." ++ ext) := by
  rcases handleFileSelect_outcomes decodeRPack parseJson buf with
    ⟨f2, hf2, hres, _, hst⟩ |
    ⟨mainJson, moduleInfo, assets, b0, b1, b2, b3, tail, hm, ha, _, hbuf, _, hf2⟩
  · rw [hf2] at h
    have hff := Option.some.inj h
    subst hff
    rcases hst with ⟨e, he⟩ | ⟨_, _, ⟨mainJson, moduleInfo, hv, hm, _⟩,
      b0, b1, b2, b3, tail, hbuf, hcalls⟩
    · exact absurd he (hok e)
    · refine ⟨mainJson, moduleInfo, b0, b1, b2, b3, tail, [], hbuf, hv, hm,
        by rw [hres]; exact Nat.zero_le _, .done _, by rw [hres]; rfl, hcalls, ?_⟩
      intro k a hk
      rw [hres] at hk
      simp at hk
  · rw [hf2] at h
    obtain ⟨r, e2, hl, hr, hc, _, hv, hst⟩ :=
      handleFileSelect_loop_result decodeRPack buf assets _ mainJson moduleInfo.name f h
    have hinit := loopInv_initial decodeRPack assets
      (6 + (b0.val + 256 * b1.val + 65536 * b2.val + 16777216 * b3.val))
      (tail.take (b0.val + 256 * b1.val + 65536 * b2.val + 16777216 * b3.val))
    have hinv := assetLoop_inv decodeRPack buf assets buf.length _ r e2 hinit hl
    have he2 : e2 = none := by
      cases e2 with
      | none => rfl
      | some e => exact absurd hst (hok e)
    have hloop := hinv.2.1 he2
    obtain ⟨_, h2, _, h4, h5⟩ := id hloop
    obtain ⟨ps, hps, hcs⟩ := assetLoop_reads_frames decodeRPack buf assets buf.length _ r e2 hl
    simp only at hps hcs
    have hsec : buf.drop (6 + (b0.val + 256 * b1.val + 65536 * b2.val + 16777216 * b3.val)) =
        tail.drop (b0.val + 256 * b1.val + 65536 * b2.val + 16777216 * b3.val) := by
      rw [hbuf, Nat.add_comm 6]
      rfl
    rw [hsec] at hps
    have hlenps : ps.length = r.results.length := by
      have := congrArg List.length h4
      rw [List.length_map, List.length_map, hcs] at this
      simpa using this
    refine ⟨mainJson, moduleInfo, b0, b1, b2, b3, tail, ps, hbuf, hv, hm,
      by rw [ha, hr]; exact h2, hps, by rw [hr]; exact hlenps, by rw [hc, hcs]; rfl, ?_⟩
    intro k a hk
    rw [hr] at hk
    obtain ⟨d, hd, hname⟩ := h5 k a hk
    obtain ⟨packed, hpk, hdk⟩ := links_of_loopInv decodeRPack assets r hloop k a hk
    refine ⟨d, packed, by rw [ha]; exact hd, ?_, hdk, ?_⟩
    · rw [hcs] at hpk
      simpa using hpk
    · rw [hname]
      exact resolveFilename_shape d.id d.declaredType a.content

/-- Witness of C16: a container with one complete frame for the one asset declared. -/
theorem handleFileSelect_pairs_assets_witness :
    ∃ (mainJson : MainJson) (moduleInfo : ModuleInfo) (b0 b1 b2 b3 : Byte) (tail : Bytes)
        (payloads : List Bytes),
      ([111, 0, 2, 0, 0, 0, 123, 125, 1, 2, 0, 0, 0, 7, 7, 0] : Bytes) =
        111 :: 0 :: b0 :: b1 :: b2 :: b3 :: tail ∧
      some demoJson = some mainJson ∧ mainJson.module = some moduleInfo ∧
      ([⟨"img1", [7, 7]⟩] : List ResolvedAsset).length ≤ (moduleInfo.assets.getD []).length ∧
      FramePayloads
        (tail.drop (b0.val + 256 * b1.val + 65536 * b2.val + 16777216 * b3.val)) payloads ∧
      payloads.length = ([⟨"img1", [7, 7]⟩] : List ResolvedAsset).length ∧
      ([[123, 125], [7, 7]] : List Bytes) =
        tail.take (b0.val + 256 * b1.val + 65536 * b2.val + 16777216 * b3.val) :: payloads ∧
      ∀ (k : Nat) (a : ResolvedAsset),
        ([⟨"img1", [7, 7]⟩] : List ResolvedAsset).get? k = some a →
        ∃ d packed, (moduleInfo.assets.getD []).get? k = some d ∧
          payloads.get? k = some packed ∧ identityRPack packed = some a.content ∧
          (a.filename = d.id ∨
            ∃ ext : String, ext.data ≠ [] ∧ a.filename = d.id ++ "." ++ ext) :=
  handleFileSelect_pairs_assets identityRPack (constantParse demoJson)
    [111, 0, 2, 0, 0, 0, 123, 125, 1, 2, 0, 0, 0, 7, 7, 0]
    { pos := 15, structureView := some demoJson, results := [⟨"img1", [7, 7]⟩],
      decodeCalls := [[123, 125], [7, 7]], status := .extracted "Demo" 1 }
    (by decide) (fun e h => Status.noConfusion h)

theorem handleFileSelect_returns (decodeRPack : Bytes → Option Bytes)
    (parseJson : Bytes → Option MainJson) (buf : Bytes) :
    ∃ f, handleFileSelect decodeRPack parseJson buf = some f := by
  rcases handleFileSelect_outcomes decodeRPack parseJson buf with
    ⟨f2, hf2, _⟩ | ⟨mainJson, moduleInfo, assets2, b0, b1, b2, b3, tail, _, _, _, _, hfuel, hf2⟩
  · exact ⟨f2, hf2⟩
  · obtain ⟨r, hr, _⟩ := assetLoop_terminates decodeRPack buf assets2 buf.length
      { pos := 6 + (b0.val + 256 * b1.val + 65536 * b2.val + 16777216 * b3.val),
        assetIndex := 0, results := [],
        decodeCalls :=
          [tail.take (b0.val + 256 * b1.val + 65536 * b2.val + 16777216 * b3.val)] } hfuel
    rw [hf2, hr]
    exact ⟨_, rfl⟩

/-- C18: the asset loop terminates for every buffer and every list of descriptors. While the
loop condition holds the marker is read inside the buffer, and the iteration either stops the
loop or goes on, in both cases with the cursor strictly further; with one unit of fuel per
evaluation of the loop condition, any fuel above the number of bytes at and after the cursor
is enough, so at most that many iterations run; and `handleFileSelect`, which gives the loop
one unit per byte of the buffer, always returns. -/
theorem assetLoop_terminates_in_buffer (decodeRPack : Bytes → Option Bytes)
    (parseJson : Bytes → Option MainJson) (buf : Bytes) (assets : List AssetDescriptor) :
    (∀ s : LoopState, s.pos < buf.length →
      ∃ marker, readByte buf s.pos = .ok (marker, s.pos + 1)) ∧
    (∀ (fuel : Nat) (s : LoopState), s.pos < buf.length → s.assetIndex < assets.length →
      (∃ r, assetLoop decodeRPack buf assets (fuel + 1) s = some r ∧ s.pos < r.1.pos) ∨
      (∃ s2 : LoopState, s.pos < s2.pos ∧
        assetLoop decodeRPack buf assets (fuel + 1) s =
          assetLoop decodeRPack buf assets fuel s2)) ∧
    (∀ (fuel : Nat) (s : LoopState), buf.length - s.pos < fuel →
      ∃ r, assetLoop decodeRPack buf assets fuel s = some r ∧ s.pos ≤ r.1.pos ∧
        ∀ k, assetLoop decodeRPack buf assets (fuel + k) s = some r) ∧
    (∃ f, handleFileSelect decodeRPack parseJson buf = some f) := by
  refine ⟨?_, ?_, ?_, handleFileSelect_returns decodeRPack parseJson buf⟩
  · intro s hs
    rcases hd : buf.drop s.pos with _ | ⟨m, rest⟩
    · exact absurd hd ((lt_length_iff_drop_ne_nil buf s.pos).mp hs)
    · exact ⟨m, readByte_of_drop buf s.pos m rest hd⟩
  · intro fuel s hs hidx
    cases loopCase_exhaustive decodeRPack buf assets s with
    | stop hc =>
      rcases hc with hc | hc
      · exact absurd hc ((lt_length_iff_drop_ne_nil buf s.pos).mp hs)
      · exact absurd hidx hc
    | zero rest hp hi =>
      exact Or.inl ⟨_, assetLoop_marker_zero _ _ _ _ _ rest hp hi, Nat.lt_succ_self _⟩
    | skip m rest hp h0 h1 hi =>
      exact Or.inr ⟨_, Nat.lt_succ_self _, assetLoop_skip _ _ _ _ _ m rest hp h0 h1 hi⟩
    | short rest hp hrest hi =>
      exact Or.inl ⟨_, assetLoop_short_length _ _ _ _ _ rest hp hrest hi, Nat.lt_succ_self _⟩
    | rejected c0 c1 c2 c3 rest hp hi hdec =>
      exact Or.inl ⟨_, assetLoop_frame_rejected _ _ _ _ _ c0 c1 c2 c3 rest hp hi hdec,
        by simp only; omega⟩
    | frame c0 c1 c2 c3 rest out d hp hi hdec =>
      exact Or.inr ⟨_, by simp only; omega,
        assetLoop_frame _ _ _ _ _ c0 c1 c2 c3 rest out d hp hi hdec⟩
  · intro fuel s hf
    obtain ⟨r, hr, hle⟩ := assetLoop_terminates decodeRPack buf assets fuel s hf
    exact ⟨r, hr, hle, fun k => assetLoop_fuel_mono decodeRPack buf assets fuel k s r hr⟩

/-- Witness of C18: after the metadata block the buffer holds only unknown marker bytes; the
loop reads the three of them and stops at the end of the buffer. -/
theorem assetLoop_terminates_in_buffer_witness :
    (∃ r, assetLoop identityRPack [111, 0, 2, 0, 0, 0, 123, 125, 5, 6, 7] [⟨"img1", .undefined⟩] 4
        { pos := 8, assetIndex := 0, results := [], decodeCalls := [[123, 125]] } = some r ∧
      8 ≤ r.1.pos ∧
      ∀ k, assetLoop identityRPack [111, 0, 2, 0, 0, 0, 123, 125, 5, 6, 7]
        [⟨"img1", .undefined⟩] (4 + k)
        { pos := 8, assetIndex := 0, results := [], decodeCalls := [[123, 125]] } = some r) ∧
    ∃ f, handleFileSelect identityRPack (constantParse demoJson)
      [111, 0, 2, 0, 0, 0, 123, 125, 5, 6, 7] = some f :=
  ⟨(assetLoop_terminates_in_buffer identityRPack (constantParse demoJson)
      [111, 0, 2, 0, 0, 0, 123, 125, 5, 6, 7] [⟨"img1", .undefined⟩]).2.2.1 4
      { pos := 8, assetIndex := 0, results := [], decodeCalls := [[123, 125]] } (by decide),
    (assetLoop_terminates_in_buffer identityRPack (constantParse demoJson)
      [111, 0, 2, 0, 0, 0, 123, 125, 5, 6, 7] [⟨"img1", .undefined⟩]).2.2.2⟩

/-! ## Runs of the asset loop over well-formed items -/

theorem length_le_length_encodeItems : ∀ its : List Item, its.length ≤ (encodeItems its).length
  | [] => Nat.le_refl _
  | .skip _ :: its => by
    have := length_le_length_encodeItems its
    simp only [encodeItems, Item.encode, List.length_cons, List.length_append, List.length_nil]
    omega
  | .frame _ _ _ _ _ _ :: its => by
    have := length_le_length_encodeItems its
    simp only [encodeItems, Item.encode, List.length_cons, List.length_append]
    omega

theorem length_itemPayloads : ∀ its : List Item,
    (itemPayloads its).length = (itemOutputs its).length
  | [] => rfl
  | .skip _ :: its => length_itemPayloads its
  | .frame _ _ _ _ _ _ :: its => by
    simp only [itemPayloads, itemOutputs, List.length_cons, length_itemPayloads its]

theorem assetLoop_items (decodeRPack : Bytes → Option Bytes) (buf : Bytes)
    (assets : List AssetDescriptor) :
    ∀ (its : List Item) (fuel : Nat) (s : LoopState) (tail : Bytes),
      (∀ it ∈ its, it.WellFormed decodeRPack) →
      buf.drop s.pos = encodeItems its ++ tail →
      s.assetIndex + (itemOutputs its).length < assets.length →
      assetLoop decodeRPack buf assets (fuel + its.length) s =
        assetLoop decodeRPack buf assets fuel
          { pos := s.pos + (encodeItems its).length,
            assetIndex := s.assetIndex + (itemOutputs its).length,
            results := s.results ++ resolveAll (assets.drop s.assetIndex) (itemOutputs its),
            decodeCalls := s.decodeCalls ++ itemPayloads its }
  | [], fuel, s, tail, _, _, _ => by
    simp [encodeItems, itemOutputs, itemPayloads, resolveAll]
  | .skip m :: its, fuel, s, tail, hwf, hpos, hcount => by
    have hm : m ≠ 0 ∧ m ≠ 1 := hwf (.skip m) (by simp)
    have hidx : s.assetIndex < assets.length := by
      simp only [itemOutputs] at hcount; omega
    have hpos2 : buf.drop s.pos = m :: (encodeItems its ++ tail) := by
      rw [hpos]; rfl
    have hfuel : fuel + (Item.skip m :: its).length = (fuel + its.length) + 1 := by
      simp only [List.length_cons]; omega
    rw [hfuel, assetLoop_skip _ _ _ _ _ m _ hpos2 hm.1 hm.2 hidx]
    rw [assetLoop_items decodeRPack buf assets its fuel { s with pos := s.pos + 1 } tail
      (fun it hit => hwf it (by simp [hit])) (drop_succ_of_drop _ _ _ _ hpos2)
      (by simpa [itemOutputs] using hcount)]
    have hlen : s.pos + 1 + (encodeItems its).length =
        s.pos + (encodeItems (Item.skip m :: its)).length := by
      simp only [encodeItems, Item.encode, List.length_append, List.length_cons,
        List.length_nil]
      omega
    simp only [hlen, itemOutputs, itemPayloads]
  | .frame c0 c1 c2 c3 payload decoded :: its, fuel, s, tail, hwf, hpos, hcount => by
    obtain ⟨hlenp, hdec⟩ : (Item.frame c0 c1 c2 c3 payload decoded).WellFormed decodeRPack :=
      hwf _ (by simp)
    have hidx : s.assetIndex < assets.length := by
      simp only [itemOutputs] at hcount; omega
    have hpos2 : buf.drop s.pos =
        1 :: c0 :: c1 :: c2 :: c3 :: (payload ++ (encodeItems its ++ tail)) := by
      rw [hpos]
      simp [encodeItems, Item.encode]
    have htake : (payload ++ (encodeItems its ++ tail)).take
        (c0.val + 256 * c1.val + 65536 * c2.val + 16777216 * c3.val) = payload := by
      rw [← hlenp, List.take_left]
    have hget : assets.get? s.assetIndex = some (assets.get ⟨s.assetIndex, hidx⟩) :=
      List.get?_eq_get hidx
    have hfuel : fuel + (Item.frame c0 c1 c2 c3 payload decoded :: its).length =
        (fuel + its.length) + 1 := by
      simp only [List.length_cons]; omega
    rw [hfuel, assetLoop_frame _ _ _ _ _ c0 c1 c2 c3 _ decoded _ hpos2 hget
      (by rw [htake]; exact hdec)]
    have hdrop : buf.drop (s.pos + 5 +
        (c0.val + 256 * c1.val + 65536 * c2.val + 16777216 * c3.val)) =
        encodeItems its ++ tail := by
      have h5 := drop_add_of_drop buf s.pos
        (5 + (c0.val + 256 * c1.val + 65536 * c2.val + 16777216 * c3.val)) _ hpos2
      rw [← Nat.add_assoc] at h5
      rw [h5, ← hlenp]
      have : 5 + payload.length = payload.length + 5 := by omega
      rw [this]
      simp only [List.drop_succ_cons]
      exact List.drop_left _ _
    rw [assetLoop_items decodeRPack buf assets its fuel _ tail
      (fun it hit => hwf it (by simp [hit])) hdrop
      (by simp only [itemOutputs, List.length_cons] at hcount ⊢; omega)]
    have hlen : s.pos + 5 + (c0.val + 256 * c1.val + 65536 * c2.val + 16777216 * c3.val) +
        (encodeItems its).length =
        s.pos + (encodeItems (Item.frame c0 c1 c2 c3 payload decoded :: its)).length := by
      simp only [encodeItems, Item.encode, List.length_append, List.length_cons, hlenp]
      omega
    have hcnt : s.assetIndex + 1 + (itemOutputs its).length =
        s.assetIndex + (itemOutputs (Item.frame c0 c1 c2 c3 payload decoded :: its)).length := by
      simp only [itemOutputs, List.length_cons]; omega
    have hdropA : assets.drop s.assetIndex =
        assets.get ⟨s.assetIndex, hidx⟩ :: assets.drop (s.assetIndex + 1) :=
      List.drop_eq_getElem_cons hidx
    simp only [htake, hlen, hcnt, hdropA, itemOutputs, itemPayloads, resolveAll,
      List.zipWith_cons_cons, List.append_assoc, List.singleton_append]

/-- C14: in a container whose asset section is a sequence of skipped bytes and complete
frames, fewer frames than there are descriptors, followed by a 0 marker, the loop stops at that
marker and the decode succeeds with exactly the assets of those frames, paired with the
descriptors by position; the cursor stands right after the marker and the outcome is the same
for all bytes that follow it. -/
theorem handleFileSelect_zero_marker (decodeRPack : Bytes → Option Bytes)
    (parseJson : Bytes → Option MainJson) (b0 b1 b2 b3 : Byte)
    (metadata decoded trailing : Bytes) (mainJson : MainJson) (moduleInfo : ModuleInfo)
    (assets : List AssetDescriptor) (its : List Item)
    (hlen : metadata.length = b0.val + 256 * b1.val + 65536 * b2.val + 16777216 * b3.val)
    (hdec : decodeRPack metadata = some decoded) (hparse : parseJson decoded = some mainJson)
    (hmod : mainJson.module = some moduleInfo) (hassets : moduleInfo.assets = some assets)
    (hwf : ∀ it ∈ its, it.WellFormed decodeRPack)
    (hcount : (itemOutputs its).length < assets.length) :
    handleFileSelect decodeRPack parseJson
        (111 :: 0 :: b0 :: b1 :: b2 :: b3 :: (metadata ++ (encodeItems its ++ 0 :: trailing))) =
      some { pos := 6 + metadata.length + (encodeItems its).length + 1,
             structureView := some mainJson,
             results := resolveAll assets (itemOutputs its),
             decodeCalls := metadata :: itemPayloads its,
             status := .extracted moduleInfo.name assets.length } := by
  have htake : List.take (b0.val + 256 * b1.val + 65536 * b2.val + 16777216 * b3.val)
      (metadata ++ (encodeItems its ++ 0 :: trailing)) = metadata := by
    rw [← hlen, List.take_left]
  have hne : assets ≠ [] := by
    intro h
    rw [h] at hcount
    simp at hcount
  rw [handleFileSelect_with_assets decodeRPack parseJson b0 b1 b2 b3 _ decoded mainJson moduleInfo
    assets (by rw [htake]; exact hdec) hparse hmod hassets hne]
  rw [htake, ← hlen]
  have hge := length_le_length_encodeItems its
  have hfuel : (metadata ++ (encodeItems its ++ 0 :: trailing)).length + 6 =
      ((metadata ++ (encodeItems its ++ 0 :: trailing)).length + 5 - its.length) + 1 +
        its.length := by
    simp only [List.length_append, List.length_cons]; omega
  have hdrop : List.drop (6 + metadata.length)
      (111 :: 0 :: b0 :: b1 :: b2 :: b3 :: (metadata ++ (encodeItems its ++ 0 :: trailing))) =
      encodeItems its ++ 0 :: trailing := by
    rw [Nat.add_comm 6]
    simp only [List.drop_succ_cons]
    exact List.drop_left _ _
  rw [hfuel, assetLoop_items decodeRPack _ assets its _
    { pos := 6 + metadata.length, assetIndex := 0, results := [], decodeCalls := [metadata] }
    (0 :: trailing) hwf hdrop (by simpa using hcount)]
  have hdrop2 : List.drop (6 + metadata.length + (encodeItems its).length)
      (111 :: 0 :: b0 :: b1 :: b2 :: b3 :: (metadata ++ (encodeItems its ++ 0 :: trailing))) =
      0 :: trailing := by
    rw [drop_add_of_drop _ _ _ _ hdrop]
    exact List.drop_left _ _
  rw [assetLoop_marker_zero decodeRPack _ assets _ _ trailing hdrop2 (by simpa using hcount)]
  simp

/-- Witness of C14: two descriptors, one skipped byte, one frame, the 0 marker, then bytes
that would be a second frame. -/
theorem handleFileSelect_zero_marker_witness :
    handleFileSelect identityRPack (constantParse twoAssetsJson)
        (111 :: 0 :: 2 :: 0 :: 0 :: 0 :: ([123, 125] ++
          (encodeItems [.skip 9, .frame 2 0 0 0 [7, 7] [7, 7]] ++ 0 :: [1, 1, 0, 0, 0, 8]))) =
      some { pos := 6 + ([123, 125] : Bytes).length +
               (encodeItems [.skip 9, .frame 2 0 0 0 [7, 7] [7, 7]]).length + 1,
             structureView := some twoAssetsJson,
             results := resolveAll [⟨"img1", .string "image/png"⟩, ⟨"img2", .string "image/png"⟩]
               (itemOutputs [.skip 9, .frame 2 0 0 0 [7, 7] [7, 7]]),
             decodeCalls := [123, 125] :: itemPayloads [.skip 9, .frame 2 0 0 0 [7, 7] [7, 7]],
             status := .extracted "Demo"
               ([⟨"img1", .string "image/png"⟩, ⟨"img2", .string "image/png"⟩] :
                 List AssetDescriptor).length } :=
  handleFileSelect_zero_marker identityRPack (constantParse twoAssetsJson) 2 0 0 0 [123, 125]
    [123, 125] [1, 1, 0, 0, 0, 8] twoAssetsJson
    ⟨"Demo", some [⟨"img1", .string "image/png"⟩, ⟨"img2", .string "image/png"⟩]⟩
    [⟨"img1", .string "image/png"⟩, ⟨"img2", .string "image/png"⟩]
    [.skip 9, .frame 2 0 0 0 [7, 7] [7, 7]] (by decide) rfl rfl rfl rfl
    (by
      intro it hit
      simp only [List.mem_cons, List.mem_singleton, List.not_mem_nil, or_false] at hit
      rcases hit with rfl | rfl
      · exact ⟨by decide, by decide⟩
      · exact ⟨by decide, rfl⟩)
    (by decide)

/-- C15 (as stated, refuted): the end-to-end container with a payload that decompresses to the
4 bytes 89 50 4E 47. The content begins with the PNG signature, yet the one resolved asset is
named "img1", not "img1.png": the declared type "image/png" is too long to be used and
contents shorter than 12 bytes are not sniffed. -/
theorem end_to_end_short_png_prefix :
    handleFileSelect identityRPack parseDemoText
        (111 :: 0 :: 61 :: 0 :: 0 :: 0 ::
          (demoJsonText ++ [1, 4, 0, 0, 0, 137, 80, 78, 71, 0])) =
      some { pos := 76, structureView := some demoJson,
             results := [⟨"img1", [137, 80, 78, 71]⟩],
             decodeCalls := [demoJsonText, [137, 80, 78, 71]],
             status := .extracted "Demo" 1 } ∧
    ("img1" : String) ≠ "img1.png" := by
  decide

/-- C15 (amended): the end-to-end container: magic 111, version 0, a length-prefixed metadata
block that decompresses to the text
`{"module":{"name":"Demo","assets":[["img1","","image/png"]]}}`, marker 1, a 4-byte
little-endian length, that many bytes which decompress to a content of at least 12 bytes
beginning 89 50 4E 47, then marker 0. The decode succeeds, shows the module named "Demo", and
resolves exactly one asset, named "img1.png", whose content is the decompressed payload; the
loop ends because the one declared asset is resolved, with the cursor on the 0 marker. -/
theorem handleFileSelect_end_to_end (decodeRPack : Bytes → Option Bytes)
    (parseJson : Bytes → Option MainJson) (b0 b1 b2 b3 c0 c1 c2 c3 : Byte)
    (metadata payload pngRest trailing : Bytes)
    (hlen : metadata.length = b0.val + 256 * b1.val + 65536 * b2.val + 16777216 * b3.val)
    (hdec : decodeRPack metadata = some demoJsonText)
    (hparse : parseJson demoJsonText = some demoJson)
    (hlenp : payload.length = c0.val + 256 * c1.val + 65536 * c2.val + 16777216 * c3.val)
    (hpng : decodeRPack payload = some (137 :: 80 :: 78 :: 71 :: pngRest))
    (hrest : 8 ≤ pngRest.length) :
    handleFileSelect decodeRPack parseJson
        (111 :: 0 :: b0 :: b1 :: b2 :: b3 ::
          (metadata ++ 1 :: c0 :: c1 :: c2 :: c3 :: (payload ++ 0 :: trailing))) =
      some { pos := 6 + metadata.length + 5 + payload.length,
             structureView := some demoJson,
             results := [⟨"img1.png", 137 :: 80 :: 78 :: 71 :: pngRest⟩],
             decodeCalls := [metadata, payload],
             status := .extracted "Demo" 1 } ∧
    demoJson.module.map ModuleInfo.name = some "Demo" := by
  refine ⟨?_, rfl⟩
  have htake : List.take (b0.val + 256 * b1.val + 65536 * b2.val + 16777216 * b3.val)
      (metadata ++ 1 :: c0 :: c1 :: c2 :: c3 :: (payload ++ 0 :: trailing)) = metadata := by
    rw [← hlen, List.take_left]
  have htakeP : List.take (c0.val + 256 * c1.val + 65536 * c2.val + 16777216 * c3.val)
      (payload ++ 0 :: trailing) = payload := by
    rw [← hlenp, List.take_left]
  have hname : resolveFilename "img1" (.string "image/png") (137 :: 80 :: 78 :: 71 :: pngRest) =
      "img1.png" := by
    rw [resolveFilename_sniffed "img1" (.string "image/png") _ (by decide)
      (by intro t ht; cases ht; decide), getExtensionFromBytes_png pngRest hrest]
    rfl
  rw [handleFileSelect_with_assets decodeRPack parseJson b0 b1 b2 b3 _ demoJsonText demoJson
    ⟨"Demo", some [⟨"img1", .string "image/png"⟩]⟩ [⟨"img1", .string "image/png"⟩]
    (by rw [htake]; exact hdec) hparse rfl rfl (by simp)]
  rw [htake, ← hlen]
  have hfuel : (metadata ++ 1 :: c0 :: c1 :: c2 :: c3 :: (payload ++ 0 :: trailing)).length + 6 =
      (metadata.length + payload.length + trailing.length + 10) + 1 + 1 := by
    simp only [List.length_append, List.length_cons]; omega
  have hdrop : List.drop (6 + metadata.length)
      (111 :: 0 :: b0 :: b1 :: b2 :: b3 ::
        (metadata ++ 1 :: c0 :: c1 :: c2 :: c3 :: (payload ++ 0 :: trailing))) =
      1 :: c0 :: c1 :: c2 :: c3 :: (payload ++ 0 :: trailing) := by
    rw [Nat.add_comm 6]
    simp only [List.drop_succ_cons]
    exact List.drop_left _ _
  rw [hfuel, assetLoop_frame decodeRPack _ [⟨"img1", .string "image/png"⟩] _
    { pos := 6 + metadata.length, assetIndex := 0, results := [], decodeCalls := [metadata] }
    c0 c1 c2 c3 _ (137 :: 80 :: 78 :: 71 :: pngRest) ⟨"img1", .string "image/png"⟩ hdrop rfl
    (by rw [htakeP]; exact hpng)]
  rw [assetLoop_stop]
  · simp [htakeP, hname, hlenp]
  · simp

/-- Witness of C15 (amended): a 61-byte metadata block and a 12-byte payload, both left
unchanged by the decompressor used here. -/
theorem handleFileSelect_end_to_end_witness :
    handleFileSelect identityRPack parseDemoText
        (111 :: 0 :: 61 :: 0 :: 0 :: 0 ::
          (demoJsonText ++ 1 :: 12 :: 0 :: 0 :: 0 ::
            ([137, 80, 78, 71, 13, 10, 26, 10, 0, 0, 0, 13] ++ 0 :: []))) =
      some { pos := 6 + demoJsonText.length + 5 +
               ([137, 80, 78, 71, 13, 10, 26, 10, 0, 0, 0, 13] : Bytes).length,
             structureView := some demoJson,
             results := [⟨"img1.png", 137 :: 80 :: 78 :: 71 :: [13, 10, 26, 10, 0, 0, 0, 13]⟩],
             decodeCalls := [demoJsonText, [137, 80, 78, 71, 13, 10, 26, 10, 0, 0, 0, 13]],
             status := .extracted "Demo" 1 } ∧
    demoJson.module.map ModuleInfo.name = some "Demo" :=
  handleFileSelect_end_to_end identityRPack parseDemoText 61 0 0 0 12 0 0 0
    demoJsonText [137, 80, 78, 71, 13, 10, 26, 10, 0, 0, 0, 13] [13, 10, 26, 10, 0, 0, 0, 13] []
    (by decide) rfl rfl (by decide) rfl (by decide)

/-! ## The asset loop only looks at the bytes from the cursor on -/

theorem assetLoop_shift (decodeRPack : Bytes → Option Bytes) (assets : List AssetDescriptor)
    (buf1 buf2 : Bytes) :
    ∀ (fuel : Nat) (s1 s2 : LoopState), buf1.drop s1.pos = buf2.drop s2.pos →
      s1.assetIndex = s2.assetIndex → s1.results = s2.results →
      s1.decodeCalls = s2.decodeCalls →
      (assetLoop decodeRPack buf1 assets fuel s1).map loopShown =
        (assetLoop decodeRPack buf2 assets fuel s2).map loopShown
  | 0, _, _, _, _, _, _ => by simp [assetLoop]
  | fuel + 1, s1, s2, hd, hi, hr, hc => by
    cases loopCase_exhaustive decodeRPack buf1 assets s1 with
    | stop h =>
      rw [assetLoop_stop_of_case _ _ _ _ _ h,
        assetLoop_stop_of_case _ _ _ _ s2 (by rw [← hd, ← hi]; exact h)]
      simp [loopShown, hi, hr, hc]
    | zero rest hp hidx =>
      rw [assetLoop_marker_zero _ _ _ _ _ rest hp hidx,
        assetLoop_marker_zero _ _ _ _ s2 rest (by rw [← hd]; exact hp) (by rw [← hi]; exact hidx)]
      simp [loopShown, hi, hr, hc]
    | skip m rest hp h0 h1 hidx =>
      rw [assetLoop_skip _ _ _ _ _ m rest hp h0 h1 hidx,
        assetLoop_skip _ _ _ _ s2 m rest (by rw [← hd]; exact hp) h0 h1
          (by rw [← hi]; exact hidx)]
      have hp2 : buf2.drop s2.pos = m :: rest := by rw [← hd]; exact hp
      exact assetLoop_shift decodeRPack assets buf1 buf2 fuel _ _
        (by
          simp only
          rw [drop_succ_of_drop _ _ _ _ hp, drop_succ_of_drop _ _ _ _ hp2])
        hi hr hc
    | short rest hp hrest hidx =>
      rw [assetLoop_short_length _ _ _ _ _ rest hp hrest hidx,
        assetLoop_short_length _ _ _ _ s2 rest (by rw [← hd]; exact hp) hrest
          (by rw [← hi]; exact hidx)]
      simp [loopShown, hi, hr, hc]
    | rejected c0 c1 c2 c3 rest hp hidx hdec =>
      rw [assetLoop_frame_rejected _ _ _ _ _ c0 c1 c2 c3 rest hp hidx hdec,
        assetLoop_frame_rejected _ _ _ _ s2 c0 c1 c2 c3 rest (by rw [← hd]; exact hp)
          (by rw [← hi]; exact hidx) hdec]
      simp [loopShown, hi, hr, hc]
    | frame c0 c1 c2 c3 rest out d hp hidx hdec =>
      rw [assetLoop_frame _ _ _ _ _ c0 c1 c2 c3 rest out d hp hidx hdec,
        assetLoop_frame _ _ _ _ s2 c0 c1 c2 c3 rest out d (by rw [← hd]; exact hp)
          (by rw [← hi]; exact hidx) hdec]
      have hp2 : buf2.drop s2.pos = 1 :: c0 :: c1 :: c2 :: c3 :: rest := by
        rw [← hd]; exact hp
      exact assetLoop_shift decodeRPack assets buf1 buf2 fuel _ _
        (by
          simp only
          rw [Nat.add_assoc, Nat.add_assoc s2.pos, drop_add_of_drop buf1 s1.pos _ _ hp,
            drop_add_of_drop buf2 s2.pos _ _ hp2])
        (by simp only; rw [hi]) (by simp only; rw [hr]) (by simp only; rw [hc])

theorem encodeItems_append (its1 its2 : List Item) :
    encodeItems (its1 ++ its2) = encodeItems its1 ++ encodeItems its2 := by
  induction its1 with
  | nil => rfl
  | cons it its1 ih => simp [encodeItems, ih]

theorem itemOutputs_append (its1 its2 : List Item) :
    itemOutputs (its1 ++ its2) = itemOutputs its1 ++ itemOutputs its2 := by
  induction its1 with
  | nil => rfl
  | cons it its1 ih => cases it <;> simp [itemOutputs, ih]

theorem itemPayloads_append (its1 its2 : List Item) :
    itemPayloads (its1 ++ its2) = itemPayloads its1 ++ itemPayloads its2 := by
  induction its1 with
  | nil => rfl
  | cons it its1 ih => cases it <;> simp [itemPayloads, ih]

theorem encodeItems_skips : ∀ junk : Bytes, encodeItems (junk.map Item.skip) = junk
  | [] => rfl
  | b :: junk => by
    simp only [List.map_cons, encodeItems, Item.encode, encodeItems_skips junk,
      List.singleton_append]

theorem itemOutputs_skips : ∀ junk : Bytes, itemOutputs (junk.map Item.skip) = []
  | [] => rfl
  | _ :: junk => by simp only [List.map_cons, itemOutputs, itemOutputs_skips junk]

theorem itemPayloads_skips : ∀ junk : Bytes, itemPayloads (junk.map Item.skip) = []
  | [] => rfl
  | _ :: junk => by simp only [List.map_cons, itemPayloads, itemPayloads_skips junk]

theorem shown_of_loopShown (mainJson : MainJson) (name : String) (n : Nat)
    (l1 l2 : Option (LoopState × Option DecodeError))
    (h : l1.map loopShown = l2.map loopShown) :
    (l1.map fun r =>
        ({ pos := r.1.pos, structureView := some mainJson, results := r.1.results,
           decodeCalls := r.1.decodeCalls,
           status :=
             match r.2 with
             | some e => .error e
             | none => .extracted name n } : Final)).map Final.shown =
      (l2.map fun r =>
        ({ pos := r.1.pos, structureView := some mainJson, results := r.1.results,
           decodeCalls := r.1.decodeCalls,
           status :=
             match r.2 with
             | some e => .error e
             | none => .extracted name n } : Final)).map Final.shown := by
  cases l1 with
  | none =>
    cases l2 with
    | none => rfl
    | some r2 => simp at h
  | some r1 =>
    cases l2 with
    | none => simp at h
    | some r2 =>
      obtain ⟨s1, e1⟩ := r1
      obtain ⟨s2, e2⟩ := r2
      simp only [Option.map_some', Option.some.injEq, loopShown, Prod.mk.injEq] at h
      obtain ⟨_, hr, hc, he⟩ := h
      simp only [Option.map_some', Final.shown, hr, hc, he]

/-- C17: an iteration that reads a marker other than 0 and 1 consumes that one byte and
changes nothing else (asset index, links and `decodeRPack` calls stay as they are), and the
loop goes on with the next byte as marker. Hence, in a container whose asset section starts
with skipped bytes and complete frames (fewer frames than descriptors), inserting bytes
other than 0 and 1 right after them, where the next marker is read, changes nothing of what
the decode shows: document, resolved assets, `decodeRPack` calls and status. -/
theorem handleFileSelect_unknown_markers (decodeRPack : Bytes → Option Bytes)
    (parseJson : Bytes → Option MainJson) (b0 b1 b2 b3 : Byte)
    (metadata decoded junk rest : Bytes) (mainJson : MainJson) (moduleInfo : ModuleInfo)
    (assets : List AssetDescriptor) (its : List Item)
    (hlen : metadata.length = b0.val + 256 * b1.val + 65536 * b2.val + 16777216 * b3.val)
    (hdec : decodeRPack metadata = some decoded) (hparse : parseJson decoded = some mainJson)
    (hmod : mainJson.module = some moduleInfo) (hassets : moduleInfo.assets = some assets)
    (hwf : ∀ it ∈ its, it.WellFormed decodeRPack)
    (hcount : (itemOutputs its).length < assets.length)
    (hjunk : ∀ b ∈ junk, b ≠ 0 ∧ b ≠ 1) :
    (∀ (buf : Bytes) (fuel : Nat) (s : LoopState) (marker : Byte) (after : Bytes),
      buf.drop s.pos = marker :: after → marker ≠ 0 → marker ≠ 1 →
      s.assetIndex < assets.length →
      assetLoop decodeRPack buf assets (fuel + 1) s =
        assetLoop decodeRPack buf assets fuel { s with pos := s.pos + 1 }) ∧
    (handleFileSelect decodeRPack parseJson
        (111 :: 0 :: b0 :: b1 :: b2 :: b3 ::
          (metadata ++ (encodeItems its ++ (junk ++ rest))))).map Final.shown =
      (handleFileSelect decodeRPack parseJson
        (111 :: 0 :: b0 :: b1 :: b2 :: b3 ::
          (metadata ++ (encodeItems its ++ rest)))).map Final.shown ∧
    ∃ f, handleFileSelect decodeRPack parseJson
      (111 :: 0 :: b0 :: b1 :: b2 :: b3 :: (metadata ++ (encodeItems its ++ rest))) =
        some f := by
  refine ⟨fun buf fuel s marker after hp h0 h1 hidx =>
    assetLoop_skip decodeRPack buf assets fuel s marker after hp h0 h1 hidx, ?_,
    handleFileSelect_returns _ _ _⟩
  have hne : assets ≠ [] := by
    intro h
    rw [h] at hcount
    simp at hcount
  have htake : ∀ tl : Bytes,
      List.take (b0.val + 256 * b1.val + 65536 * b2.val + 16777216 * b3.val)
        (metadata ++ tl) = metadata := by
    intro tl
    rw [← hlen, List.take_left]
  have hdrop : ∀ tl : Bytes, List.drop (6 + metadata.length)
      (111 :: 0 :: b0 :: b1 :: b2 :: b3 :: (metadata ++ tl)) = tl := by
    intro tl
    rw [Nat.add_comm 6]
    simp only [List.drop_succ_cons]
    exact List.drop_left _ _
  rw [handleFileSelect_with_assets decodeRPack parseJson b0 b1 b2 b3 _ decoded mainJson moduleInfo
      assets (by rw [htake]; exact hdec) hparse hmod hassets hne,
    handleFileSelect_with_assets decodeRPack parseJson b0 b1 b2 b3 _ decoded mainJson moduleInfo
      assets (by rw [htake]; exact hdec) hparse hmod hassets hne]
  apply shown_of_loopShown
  rw [htake, htake, ← hlen]
  have hge := length_le_length_encodeItems its
  obtain ⟨spare, hfuel1⟩ : ∃ spare : Nat,
      (metadata ++ (encodeItems its ++ rest)).length + 6 = spare + its.length :=
    ⟨(metadata ++ (encodeItems its ++ rest)).length + 6 - its.length, by
      simp only [List.length_append]; omega⟩
  have hfuel2 : (metadata ++ (encodeItems its ++ (junk ++ rest))).length + 6 =
      spare + (its ++ junk.map Item.skip).length := by
    simp only [List.length_append, List.length_map] at hfuel1 ⊢; omega
  have hwf2 : ∀ it ∈ its ++ junk.map Item.skip, it.WellFormed decodeRPack := by
    intro it hit
    rw [List.mem_append] at hit
    rcases hit with hit | hit
    · exact hwf it hit
    · obtain ⟨b, hb, rfl⟩ := List.mem_map.mp hit
      exact hjunk b hb
  have henc2 : encodeItems (its ++ junk.map Item.skip) ++ rest =
      encodeItems its ++ (junk ++ rest) := by
    rw [encodeItems_append, encodeItems_skips, List.append_assoc]
  rw [hfuel2, assetLoop_items decodeRPack _ assets (its ++ junk.map Item.skip) _
      { pos := 6 + metadata.length, assetIndex := 0, results := [], decodeCalls := [metadata] }
      rest hwf2 (by rw [hdrop, henc2])
      (by rw [itemOutputs_append, itemOutputs_skips]; simpa using hcount),
    hfuel1, assetLoop_items decodeRPack _ assets its _
      { pos := 6 + metadata.length, assetIndex := 0, results := [], decodeCalls := [metadata] }
      rest hwf (hdrop _) (by simpa using hcount)]
  apply assetLoop_shift
  · simp only
    rw [drop_add_of_drop _ _ _ _ (hdrop _), drop_add_of_drop _ _ _ _ (hdrop _),
      encodeItems_append, encodeItems_skips, List.drop_left]
    rw [← List.append_assoc, List.drop_left]
  · simp only [itemOutputs_append, itemOutputs_skips, List.append_nil]
  · simp only [itemOutputs_append, itemOutputs_skips, List.append_nil]
  · simp only [itemPayloads_append, itemPayloads_skips, List.append_nil]

/-- Witness of C17: two descriptors, one frame, then the bytes 9 and 200 inserted before the
marker of the second frame; both assets are resolved as without the inserted bytes. -/
theorem handleFileSelect_unknown_markers_witness :
    (handleFileSelect identityRPack (constantParse twoAssetsJson)
        (111 :: 0 :: 2 :: 0 :: 0 :: 0 :: ([123, 125] ++
          (encodeItems [.frame 2 0 0 0 [7, 7] [7, 7]] ++
            ([9, 200] ++ [1, 1, 0, 0, 0, 8]))))).map Final.shown =
      some (some twoAssetsJson, [⟨"img1", [7, 7]⟩, ⟨"img2", [8]⟩], [[123, 125], [7, 7], [8]],
        .extracted "Demo" 2) :=
  (handleFileSelect_unknown_markers identityRPack (constantParse twoAssetsJson) 2 0 0 0
    [123, 125] [123, 125] [9, 200] [1, 1, 0, 0, 0, 8] twoAssetsJson
    ⟨"Demo", some [⟨"img1", .string "image/png"⟩, ⟨"img2", .string "image/png"⟩]⟩
    [⟨"img1", .string "image/png"⟩, ⟨"img2", .string "image/png"⟩]
    [.frame 2 0 0 0 [7, 7] [7, 7]] (by decide) rfl rfl rfl rfl
    (by
      intro it hit
      simp only [List.mem_singleton] at hit
      subst hit
      exact ⟨by decide, rfl⟩)
    (by decide)
    (by
      intro b hb
      simp only [List.mem_cons, List.mem_singleton, List.not_mem_nil, or_false] at hb
      rcases hb with rfl | rfl <;> exact ⟨by decide, by decide⟩)).2.1.trans (by decide)

end RisuExtractor
